import Mathlib

/-
Verification of the argument-parsing component of the iafisher/foundation
repository (src/python/iafisher_foundation/command/command.py).

The Python module is shallowly embedded below:
  * `Value` models the dynamic Python values that flow through the parser
    (the `NOTHING` sentinel, `None`, booleans, strings and lists).
  * `ArgSpec`, `Mutex`, `Command` model the classes of the same names.
    Help-text fields (`help`, `description`, `program`) are omitted: they
    are only used for rendering help text, never by the parser.  The
    `handler` is omitted as well; `_parse_command` returns it unchanged,
    so `parseCommand` below returns only the `ParseResult` component.
  * `parseCommand` models `parse`/`_parse_command`: the `while` loop of
    `_parse_command` becomes `scanLoop`, whose per-iteration body is
    `scanStep`.  The Python loop walks `argv` with an integer cursor
    `index`; the embedding carries the remaining suffix `argv[index:]`
    as the `rest` field of `ScanState`, which is equivalent because the
    loop only ever reads `argv[index]` and increments `index`.  The loop
    is given explicit fuel (one unit per iteration; every iteration
    consumes at least one token, a fact proved in `scanStep_rest_length`)
    so that the function is structurally recursive; `parseCommand`
    supplies sufficient fuel, and `scanLoop_congr` shows the result does
    not depend on the fuel as long as it is sufficient.
  * `CmdError` / `CmdHelpError` / `CmdVersionError` become the
    `ParseError` inductive.  The payload of `CmdHelpError` (the command and
    index, used only to render help text) is dropped.
  * String helpers (`_is_flag`, `_is_decimal_number`, `_is_help_flag`,
    `_is_version_flag`, `split("=", maxsplit=1)`, `split(",")`) are
    modelled character-exactly on `List Char`.  `_is_decimal_number`
    implements the numeric-string grammar accepted by the Python
    `decimal.Decimal` constructor (optional sign; digits with optional
    fraction and exponent; `Inf`/`Infinity`; `NaN`/`sNaN` with an
    optional digit payload; case-insensitive; underscores removed
    throughout; surrounding whitespace stripped).  Whitespace and digits
    are restricted to ASCII, where CPython also accepts some Unicode
    whitespace and digits.
-/

namespace Foundation

/-! ## Generic helpers: association lists with Python-dict semantics -/

/-- Lookup in an association list (Python `dict.get`). -/
def assocGet {α : Type} (l : List (String × α)) (key : String) : Option α :=
  match l with
  | [] => Option.none
  | (k, v) :: tl => if k == key then Option.some v else assocGet tl key

/-- Update the value stored at an existing key, keeping its position
(Python mutation of a value already stored in a dict). -/
def assocSet {α : Type} (l : List (String × α)) (key : String) (val : α) :
    List (String × α) :=
  match l with
  | [] => []
  | (k, v) :: tl =>
    if k == key then (k, val) :: tl else (k, v) :: assocSet tl key val

/-- Insert into an association list with Python `dict.__setitem__`
semantics: an existing key keeps its position and gets the new value, a
new key is appended at the end. -/
def dictInsert {α : Type} (l : List (String × α)) (key : String) (val : α) :
    List (String × α) :=
  if l.any (fun p => p.1 == key) then assocSet l key val else l ++ [(key, val)]

/-! ## Character-level string helpers -/

/-- Split a character list at the first occurrence of `ch`
(Python `str.split(ch, maxsplit=1)` when it finds a separator). -/
def splitOnceChar (cs : List Char) (ch : Char) : Option (List Char × List Char) :=
  match cs with
  | [] => Option.none
  | c :: tl =>
    if c == ch then Option.some ([], tl)
    else
      match splitOnceChar tl ch with
      | Option.none => Option.none
      | Option.some (a, b) => Option.some (c :: a, b)

/-- Helper for `splitAllChar`: accumulates the current field in reverse. -/
def splitAllCharGo (cs : List Char) (ch : Char) (acc : List Char) :
    List (List Char) :=
  match cs with
  | [] => [acc.reverse]
  | c :: tl =>
    if c == ch then acc.reverse :: splitAllCharGo tl ch []
    else splitAllCharGo tl ch (c :: acc)

/-- Split a character list at every occurrence of `ch`
(Python `str.split(ch)`): splitting the empty string yields one empty
field, exactly as in Python. -/
def splitAllChar (cs : List Char) (ch : Char) : List (List Char) :=
  splitAllCharGo cs ch []

/-- Python `str.split(",")` on `String`s. -/
def splitAllStr (s : String) (ch : Char) : List String :=
  (splitAllChar s.data ch).map (fun cs => String.mk cs)

/-- ASCII whitespace, as stripped by `str.strip()` on ASCII input. -/
def isAsciiWs (c : Char) : Bool :=
  c == ' ' || c == '\t' || c == '\n' || c == '\r' || c == '\x0b' || c == '\x0c'

/-- Strip leading and trailing whitespace (Python `str.strip()`). -/
def stripWs (cs : List Char) : List Char :=
  (((cs.dropWhile isAsciiWs).reverse).dropWhile isAsciiWs).reverse

/-! ## The decimal numeric-string grammar (`_is_decimal_number`) -/

/-- Drop one leading sign character, if present. -/
def dropSign (cs : List Char) : List Char :=
  match cs with
  | [] => []
  | c :: tl => if c == '+' || c == '-' then tl else c :: tl

/-- A non-empty run of ASCII digits. -/
def isDigitsNonEmpty (cs : List Char) : Bool :=
  !cs.isEmpty && cs.all Char.isDigit

/-- The `decimal-part` production: `digits [. digits]` or `. digits` or
`digits .`. -/
def parseDecimalPart (cs : List Char) : Bool :=
  match splitOnceChar cs '.' with
  | Option.none => isDigitsNonEmpty cs
  | Option.some (a, b) =>
    a.all Char.isDigit && b.all Char.isDigit && (!a.isEmpty || !b.isEmpty)

/-- The `exponent-part` production after the `e` marker:
an optional sign followed by a non-empty run of digits. -/
def parseExponent (cs : List Char) : Bool :=
  isDigitsNonEmpty (dropSign cs)

/-- The `numeric-value` production: a decimal part with an optional
exponent. -/
def parseNumericValue (cs : List Char) : Bool :=
  match splitOnceChar cs 'e' with
  | Option.none => parseDecimalPart cs
  | Option.some (m, ex) => parseDecimalPart m && parseExponent ex

/-- A full numeric string after cleaning: optional sign, then either an
infinity literal, a (signalling) NaN with optional digit payload, or a
numeric value. -/
def parseNumericString (cs0 : List Char) : Bool :=
  let cs := dropSign cs0
  if cs == ['i', 'n', 'f'] || cs == ['i', 'n', 'f', 'i', 'n', 'i', 't', 'y'] then
    true
  else if cs.take 3 == ['n', 'a', 'n'] then (cs.drop 3).all Char.isDigit
  else if cs.take 4 == ['s', 'n', 'a', 'n'] then (cs.drop 4).all Char.isDigit
  else parseNumericValue cs

/-- Character-list core of `_is_decimal_number`: whether
`decimal.Decimal` accepts the string.  Whitespace is stripped from both
ends, underscores are removed throughout, and matching is
case-insensitive. -/
def isDecimalNumberL (cs : List Char) : Bool :=
  parseNumericString (((stripWs cs).filter (fun c => c != '_')).map Char.toLower)

/-- Model of `_is_decimal_number`. -/
def isDecimalNumber (s : String) : Bool :=
  isDecimalNumberL s.data

/-- Model of `_is_flag`: starts with a hyphen, has at least two
characters, and the remainder is not a decimal number (so `-1`, `-1.5`
are not flags). -/
def isFlag (name : String) : Bool :=
  match name.data with
  | [] => false
  | c :: rest => c == '-' && !rest.isEmpty && !isDecimalNumberL rest

/-- Model of `_is_help_flag`. -/
def isHelpFlag (name : String) : Bool :=
  name == "-h" || name == "-help" || name == "--help" || name == "-?"

/-- Model of `_is_version_flag`. -/
def isVersionFlag (name : String) : Bool :=
  name == "-version" || name == "--version"

/-! ## The data model -/

/-- Model of the `ArgCount` enum. -/
inductive ArgCount where
  | zero
  | one
  | many
deriving DecidableEq, Repr

/-- Dynamic Python values flowing through the parser: the `NOTHING`
sentinel, `None`, booleans, strings, and lists. -/
inductive Value where
  | nothing
  | none
  | bool (b : Bool)
  | str (s : String)
  | vlist (xs : List Value)

mutual

/-- Boolean equality on parse values (structural, so that it evaluates
by kernel reduction). -/
def Value.beq : Value → Value → Bool
  | Value.nothing, Value.nothing => true
  | Value.none, Value.none => true
  | Value.bool a, Value.bool b => a == b
  | Value.str a, Value.str b => a == b
  | Value.vlist xs, Value.vlist ys => Value.beqList xs ys
  | _, _ => false

/-- Boolean equality on lists of parse values. -/
def Value.beqList : List Value → List Value → Bool
  | [], [] => true
  | a :: as, b :: bs => Value.beq a b && Value.beqList as bs
  | _, _ => false

end

mutual

/-- Soundness of `Value.beq`. -/
def Value.beqSound : (a b : Value) → Value.beq a b = true → a = b
  | Value.nothing, Value.nothing, _ => rfl
  | Value.none, Value.none, _ => rfl
  | Value.bool x, Value.bool y, h => by
    simp only [Value.beq, beq_iff_eq] at h
    exact congrArg Value.bool h
  | Value.str x, Value.str y, h => by
    simp only [Value.beq, beq_iff_eq] at h
    exact congrArg Value.str h
  | Value.vlist xs, Value.vlist ys, h =>
    congrArg Value.vlist (Value.beqListSound xs ys h)
  | Value.nothing, Value.none, h => nomatch h
  | Value.nothing, Value.bool _, h => nomatch h
  | Value.nothing, Value.str _, h => nomatch h
  | Value.nothing, Value.vlist _, h => nomatch h
  | Value.none, Value.nothing, h => nomatch h
  | Value.none, Value.bool _, h => nomatch h
  | Value.none, Value.str _, h => nomatch h
  | Value.none, Value.vlist _, h => nomatch h
  | Value.bool _, Value.nothing, h => nomatch h
  | Value.bool _, Value.none, h => nomatch h
  | Value.bool _, Value.str _, h => nomatch h
  | Value.bool _, Value.vlist _, h => nomatch h
  | Value.str _, Value.nothing, h => nomatch h
  | Value.str _, Value.none, h => nomatch h
  | Value.str _, Value.bool _, h => nomatch h
  | Value.str _, Value.vlist _, h => nomatch h
  | Value.vlist _, Value.nothing, h => nomatch h
  | Value.vlist _, Value.none, h => nomatch h
  | Value.vlist _, Value.bool _, h => nomatch h
  | Value.vlist _, Value.str _, h => nomatch h

/-- Soundness of `Value.beqList`. -/
def Value.beqListSound : (xs ys : List Value) → Value.beqList xs ys = true → xs = ys
  | [], [], _ => rfl
  | a :: as, b :: bs, h => by
    simp only [Value.beqList, Bool.and_eq_true] at h
    rw [Value.beqSound a b h.1, Value.beqListSound as bs h.2]
  | [], _ :: _, h => nomatch h
  | _ :: _, [], h => nomatch h

end

mutual

/-- Reflexivity of `Value.beq`. -/
def Value.beqRefl : (a : Value) → Value.beq a a = true
  | Value.nothing => rfl
  | Value.none => rfl
  | Value.bool x => by simp [Value.beq]
  | Value.str x => by simp [Value.beq]
  | Value.vlist xs => Value.beqListRefl xs

/-- Reflexivity of `Value.beqList`. -/
def Value.beqListRefl : (xs : List Value) → Value.beqList xs xs = true
  | [] => rfl
  | a :: as => by
    simp only [Value.beqList, Bool.and_eq_true]
    exact ⟨Value.beqRefl a, Value.beqListRefl as⟩

end

instance : DecidableEq Value := fun a b =>
  if h : Value.beq a b = true then Decidable.isTrue (Value.beqSound a b h)
  else Decidable.isFalse (fun e => h (e ▸ Value.beqRefl a))

instance : BEq Value := ⟨Value.beq⟩

/-- Model of `ArgSpec` (the `help` text field is omitted; converters are
modelled as functions on parse values). -/
structure ArgSpec where
  name : String
  n : ArgCount
  required : Bool
  default : Value
  converter : Option (Value → Value)
  dest : String

/-- Model of `Mutex` (a mutual-exclusion group marker). -/
structure Mutex where
  optional : Bool
  mutexId : String

/-- Model of the `Command` class: the flag table (`_flags`, keyed by the
`name` field of each spec, in insertion order), ordered positionals
(`_positionals`), the optional passthrough destination (`_passthrough`),
mutual-exclusion groups (`_mutexes`, mapping a mutex id to the `Mutex`
and the flag names in the group), the `_names_taken` bookkeeping set,
and the logging-verbosity hint. -/
structure Command where
  namesTaken : List String
  flags : List ArgSpec
  positionals : List ArgSpec
  passthrough : Option String
  mutexes : List (String × (Mutex × List String))
  lessLogging : Bool

/-- Model of `ParseResult`. -/
structure ParseResult where
  args : List (String × Value)
  kwargs : List (String × Value)
  lessLogging : Bool
deriving DecidableEq

/-- Errors raised during parsing.  `cmdError` models `CmdError` with its
message; `helpError` and `versionError` model `CmdHelpError` and
`CmdVersionError` (the help payload, used only for rendering, is
dropped); `impossible` models the `impossible()` assertion helper;
`outOfFuel` is the out-of-fuel marker of the embedding, unreachable from
`parseCommand` (see `scanLoop_congr`). -/
inductive ParseError where
  | cmdError (msg : String)
  | helpError
  | versionError
  | impossible
  | outOfFuel
deriving DecidableEq, Repr

instance {ε α : Type} [DecidableEq ε] [DecidableEq α] : DecidableEq (Except ε α) :=
  fun a b =>
    match a, b with
    | Except.ok x, Except.ok y =>
      if h : x = y then Decidable.isTrue (congrArg Except.ok h)
      else Decidable.isFalse (fun e => h (Except.ok.inj e))
    | Except.error x, Except.error y =>
      if h : x = y then Decidable.isTrue (congrArg Except.error h)
      else Decidable.isFalse (fun e => h (Except.error.inj e))
    | Except.ok _, Except.error _ => Decidable.isFalse (fun e => nomatch e)
    | Except.error _, Except.ok _ => Decidable.isFalse (fun e => nomatch e)

/-! ## Building commands (`Command._check` and the `_switch`/`_arg`/
`_flag`/`_add_passthrough` builders) -/

/-- Whether a name starts with a hyphen (Python
`name.startswith("-")`). -/
def startsWithDash (name : String) : Bool :=
  match name.data with
  | [] => false
  | c :: _ => c == '-'

/-- Model of `Command._check`: the structural checks run before adding
any argument, returning the command with the name recorded as taken.
Python raises `CmdError(msg, name)` with the offending name as a second
exception argument; the embedding folds the name into the message. -/
def Command.check (cmd : Command) (name : String) (isFlagArg : Bool)
    (required : Bool) : Except ParseError Command :=
  if cmd.passthrough.isSome then
    Except.error (ParseError.cmdError ("command was already specified as passthrough"))
  else if cmd.namesTaken.contains name then
    Except.error (ParseError.cmdError (("duplicate argument name: ") ++ name))
  else if isHelpFlag name || isVersionFlag name then
    Except.error (ParseError.cmdError (("flag name is reserved: ") ++ name))
  else if isFlagArg && !isFlag name then
    Except.error (ParseError.cmdError (("flag name is not valid: ") ++ name))
  else if !isFlagArg && startsWithDash name then
    Except.error (ParseError.cmdError (("positional name must not start with hyphen: ") ++ name))
  else if !isFlagArg && required && cmd.positionals.any (fun spec => !spec.required) then
    Except.error (ParseError.cmdError (("required positional argument cannot follow optional: ") ++ name))
  else if !isFlagArg && cmd.positionals.any (fun spec => spec.n == ArgCount.many) then
    Except.error (ParseError.cmdError ("list positional argument must be last"))
  else
    Except.ok { cmd with namesTaken := cmd.namesTaken ++ [name] }

/-- Insert a spec into the flag table with dict-assignment semantics
(`self._flags[name] = ArgSpec(...)`). -/
def insertFlagSpec (l : List ArgSpec) (spec : ArgSpec) : List ArgSpec :=
  if l.any (fun s => s.name == spec.name) then
    l.map (fun s => if s.name == spec.name then spec else s)
  else l ++ [spec]

/-- Model of `Command._switch`. -/
def Command.switch (cmd : Command) (name : String) (dest : String) :
    Except ParseError Command := do
  let cmd ← cmd.check name true false
  Except.ok { cmd with
    flags := insertFlagSpec cmd.flags
      { name := name, n := ArgCount.zero, required := false,
        default := Value.bool false, converter := Option.none,
        dest := if dest == "" then name else dest } }

/-- Model of `Command._flag` (the help-text decoration of the default is
omitted together with the help field). -/
def Command.flagArg (cmd : Command) (name : String) (n : ArgCount)
    (required : Bool) (default : Value) (converter : Option (Value → Value))
    (dest : String) : Except ParseError Command := do
  let cmd ← cmd.check name true required
  let default :=
    if default == Value.nothing && !required then
      (if n == ArgCount.many then Value.vlist [] else Value.none)
    else default
  Except.ok { cmd with
    flags := insertFlagSpec cmd.flags
      { name := name, n := n, required := required, default := default,
        converter := converter, dest := if dest == "" then name else dest } }

/-- Model of `Command._arg`. -/
def Command.posArg (cmd : Command) (name : String) (required : Bool)
    (n : ArgCount) (converter : Option (Value → Value)) :
    Except ParseError Command := do
  let cmd ← cmd.check name false required
  Except.ok { cmd with
    positionals := cmd.positionals ++
      [{ name := name, n := n, required := required,
         default := if n == ArgCount.many then Value.vlist [] else Value.nothing,
         converter := converter, dest := name }] }

/-- Model of `Command._add_passthrough`. -/
def Command.addPassthrough (cmd : Command) (name : String) :
    Except ParseError Command :=
  if cmd.flags.length > 0 || cmd.positionals.length > 0 then
    Except.error (ParseError.cmdError ("command with flags or positionals cannot be marked as passthrough"))
  else Except.ok { cmd with passthrough := Option.some name }

/-- One call to a spec-building method of `Command`. -/
inductive AddOp where
  | switchOp (name : String) (dest : String)
  | flagOp (name : String) (n : ArgCount) (required : Bool) (default : Value)
      (converter : Option (Value → Value)) (dest : String)
  | argOp (name : String) (required : Bool) (n : ArgCount)
      (converter : Option (Value → Value))
  | passthroughOp (name : String)

/-- Apply one spec-building call. -/
def applyOp (cmd : Command) : AddOp → Except ParseError Command
  | AddOp.switchOp name dest => cmd.switch name dest
  | AddOp.flagOp name n required default converter dest =>
    cmd.flagArg name n required default converter dest
  | AddOp.argOp name required n converter => cmd.posArg name required n converter
  | AddOp.passthroughOp name => cmd.addPassthrough name

/-- A command with no specs, as `Command.__init__` produces. -/
def Command.empty : Command :=
  { namesTaken := [], flags := [], positionals := [],
    passthrough := Option.none, mutexes := [], lessLogging := true }

/-- Build a command by a sequence of spec-building calls, as
`Command.from_function` does while iterating a signature. -/
def buildCommand (ops : List AddOp) : Except ParseError Command :=
  ops.foldlM applyOp Command.empty

/-! ## Groups -/

/-- A subcommand tree node: a `Command` or a nested group.  A `Group` is
identified with its subcommand mapping (its help-text fields are
omitted). -/
inductive CmdOrGroup where
  | command (c : Command)
  | group (subcmds : List (String × CmdOrGroup))

/-- Model of `Group.add`: adding a subcommand whose name is already
present raises `CmdError("duplicate subcommand", name)`. -/
def groupAdd (subcmds : List (String × CmdOrGroup)) (name : String)
    (c : CmdOrGroup) : Except ParseError (List (String × CmdOrGroup)) :=
  if subcmds.any (fun p => p.1 == name) then
    Except.error (ParseError.cmdError (("duplicate subcommand: ") ++ name))
  else Except.ok (subcmds ++ [(name, c)])

/-- Model of `Group.add2`: builds a `Command` from a function and then
delegates to `Group.add`.  The reflection step (`Command.from_function`)
is abstracted: the already-built command is passed in. -/
def groupAdd2 (subcmds : List (String × CmdOrGroup)) (name : String)
    (cmd : Command) : Except ParseError (List (String × CmdOrGroup)) :=
  groupAdd subcmds name (CmdOrGroup.command cmd)

/-- Build a group by a sequence of `Group.add` calls starting from the
empty group. -/
def buildGroup (adds : List (String × CmdOrGroup)) :
    Except ParseError (List (String × CmdOrGroup)) :=
  adds.foldlM (fun g p => groupAdd g p.1 p.2) []

/-! ## The parser (`_parse_command`) -/

/-- Model of the local `SpecAndValue` dataclass. -/
structure SpecAndValue where
  spec : ArgSpec
  value : Value
  isSet : Bool

/-- Model of the local `MutexState` dataclass. -/
structure MutexState where
  satisfied : Option String
  optional : Bool
  eligibleFlags : List String

/-- The per-parse scanning state: the flag-value table `flags_to_parse`
(keyed by flag name, in insertion order), the positional table and
cursor, the mutual-exclusion tracking, the `done_with_flags` latch, and
the remaining tokens `argv[index:]`. -/
structure ScanState where
  flagsToParse : List (String × SpecAndValue)
  positionalsToParse : List SpecAndValue
  positionalsIndex : Nat
  mutexes : List (String × MutexState)
  doneWithFlags : Bool
  rest : List String

/-- Model of the inner `_consume_one`: consume the next token as a flag
argument; it must exist and must not itself be a flag. -/
def consumeOne (rest : List String) (name : String) :
    Except ParseError (String × List String) :=
  match rest with
  | [] => Except.error (ParseError.cmdError ("expected another argument"))
  | arg :: tl =>
    if isFlag arg then
      Except.error (ParseError.cmdError (("expected argument after ") ++ name ++ (", not another flag")))
    else Except.ok (arg, tl)

/-- The greedy loop of `_consume_multi`: take tokens while one remains
and (`done_with_flags` or the token is not a flag). -/
def consumeMultiGo (rest : List String) (doneWithFlags : Bool) :
    List String × List String :=
  match rest with
  | [] => ([], [])
  | arg :: tl =>
    if doneWithFlags || !isFlag arg then
      let (r, rest2) := consumeMultiGo tl doneWithFlags
      (arg :: r, rest2)
    else ([], arg :: tl)

/-- Model of the inner `_consume_multi`: at least one token must exist,
tokens are consumed greedily, and consuming none is an error. -/
def consumeMulti (rest : List String) (name : String) (doneWithFlags : Bool) :
    Except ParseError (List String × List String) :=
  match rest with
  | [] => Except.error (ParseError.cmdError ("expected another argument"))
  | arg :: tl =>
    let (r, rest2) := consumeMultiGo (arg :: tl) doneWithFlags
    if r.isEmpty then
      Except.error (ParseError.cmdError (("expected argument after ") ++ name))
    else Except.ok (r, rest2)

/-- Model of `arg.split("=", maxsplit=1)` as used on flag tokens: the
part before the first `=` and, if a `=` is present, everything after
it. -/
def splitFlagEq (arg : String) : String × Option String :=
  match splitOnceChar arg.data '=' with
  | Option.none => (arg, Option.none)
  | Option.some (a, b) => (String.mk a, Option.some (String.mk b))

/-- The `flag_to_mutex_id` comprehension built at the top of
`_parse_command`. -/
def flagToMutexIdMap (cmd : Command) : List (String × String) :=
  cmd.mutexes.foldl
    (fun acc p => p.2.2.foldl (fun acc2 n => dictInsert acc2 n p.2.1.mutexId) acc)
    []

/-- The mutual-exclusion bookkeeping done when a flag token is consumed:
if the flag belongs to a group that is already satisfied, parsing fails;
otherwise the group is marked satisfied by this flag. -/
def mutexStep (cmd : Command) (name : String)
    (mutexes : List (String × MutexState)) :
    Except ParseError (List (String × MutexState)) :=
  match assocGet (flagToMutexIdMap cmd) name with
  | Option.none => Except.ok mutexes
  | Option.some mid =>
    match assocGet mutexes mid with
    | Option.none => Except.error ParseError.impossible
    | Option.some m =>
      match m.satisfied with
      | Option.some prev =>
        Except.error (ParseError.cmdError (prev ++ (" and ") ++ name ++ (" are mutually exclusive")))
      | Option.none =>
        Except.ok (assocSet mutexes mid { m with satisfied := Option.some name })

/-- The flag branch of the scan loop, after the token has been split
into a flag name and an optional `=`-joined value. -/
def processFlag (cmd : Command) (name : String) (argvalue : Option String)
    (tl : List String) (st : ScanState) : Except ParseError ScanState :=
  match assocGet st.flagsToParse name with
  | Option.none => Except.error (ParseError.cmdError (("unknown flag: ") ++ name))
  | Option.some sv =>
    if sv.isSet then
      Except.error (ParseError.cmdError (("flag was repeated: ") ++ name))
    else
      match mutexStep cmd name st.mutexes with
      | Except.error e => Except.error e
      | Except.ok mutexes2 =>
        let setValue := fun (v : Value) (rest2 : List String) =>
          Except.ok { st with
            flagsToParse := assocSet st.flagsToParse name
              { sv with isSet := true, value := v },
            mutexes := mutexes2,
            rest := rest2 }
        match sv.spec.n with
        | ArgCount.zero =>
          match argvalue with
          | Option.some av =>
            if av == "true" then setValue (Value.bool true) tl
            else if av == "false" then setValue (Value.bool false) tl
            else Except.error (ParseError.cmdError (("flag argument must be \x27true\x27 or \x27false\x27: ") ++ name))
          | Option.none => setValue (Value.bool true) tl
        | ArgCount.one =>
          match argvalue with
          | Option.none =>
            match consumeOne tl sv.spec.name with
            | Except.error e => Except.error e
            | Except.ok (v, tl2) => setValue (Value.str v) tl2
          | Option.some av => setValue (Value.str av) tl
        | ArgCount.many =>
          match argvalue with
          | Option.none =>
            match consumeMulti tl sv.spec.name false with
            | Except.error e => Except.error e
            | Except.ok (vs, tl2) => setValue (Value.vlist (vs.map Value.str)) tl2
          | Option.some av =>
            setValue (Value.vlist ((splitAllStr av ',').map Value.str)) tl

/-- The positional (else) branch of the scan loop: bind the token to the
next unfilled positional slot. -/
def bindPositional (cmd : Command) (arg : String) (tl : List String)
    (st : ScanState) : Except ParseError ScanState :=
  match st.positionalsToParse[st.positionalsIndex]? with
  | Option.none => Except.error (ParseError.cmdError (("extra argument: ") ++ arg))
  | Option.some sv =>
    match sv.spec.n with
    | ArgCount.one =>
      Except.ok { st with
        positionalsToParse := st.positionalsToParse.set st.positionalsIndex
          { sv with value := Value.str arg },
        positionalsIndex := st.positionalsIndex + 1,
        rest := tl }
    | ArgCount.many =>
      match consumeMulti (arg :: tl) sv.spec.name st.doneWithFlags with
      | Except.error e => Except.error e
      | Except.ok (vs, rest2) =>
        Except.ok { st with
          positionalsToParse := st.positionalsToParse.set st.positionalsIndex
            { sv with value := Value.vlist (vs.map Value.str) },
          positionalsIndex := st.positionalsIndex + 1,
          rest := rest2 }
    | ArgCount.zero => Except.error ParseError.impossible

/-- One iteration of the scan loop of `_parse_command`, with the rules
in the priority order of the source: the `--` latch, help tokens,
version tokens, flag tokens, and finally positional binding. -/
def scanStep (cmd : Command) (arg : String) (tl : List String)
    (st : ScanState) : Except ParseError ScanState :=
  if arg == "--" then
    Except.ok { st with doneWithFlags := true, rest := tl }
  else if !st.doneWithFlags && isHelpFlag arg then
    Except.error ParseError.helpError
  else if !st.doneWithFlags && isVersionFlag arg then
    Except.error ParseError.versionError
  else if !st.doneWithFlags && isFlag arg then
    let p := splitFlagEq arg
    processFlag cmd p.1 p.2 tl st
  else bindPositional cmd arg tl st

/-- The scan loop (`while index < len(argv)` in the source), with
explicit fuel making it structurally recursive.  Each iteration consumes
at least one token, so `rest.length + 1` fuel always suffices (see
`scanLoop_congr`). -/
def scanLoop (cmd : Command) : Nat → ScanState → Except ParseError ScanState
  | 0, _ => Except.error ParseError.outOfFuel
  | Nat.succ fuel, st =>
    match st.rest with
    | [] => Except.ok st
    | arg :: tl =>
      match scanStep cmd arg tl st with
      | Except.error e => Except.error e
      | Except.ok st2 => scanLoop cmd fuel st2

/-- Model of `apply_converter`: element-wise on lists, direct otherwise. -/
def applyConverter (converter : Value → Value) (x : Value) : Value :=
  match x with
  | Value.vlist xs => Value.vlist (xs.map converter)
  | v => converter v

/-- Insertion into a sorted list of strings, for modelling Python
`sorted`. -/
def insertSorted (x : String) : List String → List String
  | [] => [x]
  | y :: tl => if x < y || x == y then x :: y :: tl else y :: insertSorted x tl

/-- Python `sorted` on a list of strings (lexicographic by code
point). -/
def sortStrings (l : List String) : List String :=
  l.foldr insertSorted []

/-- The missing-positionals check after the scan loop. -/
def checkMissingPositionals (st : ScanState) : Except ParseError Unit :=
  if st.positionalsIndex < st.positionalsToParse.length then
    let missingPositionals :=
      (st.positionalsToParse.drop st.positionalsIndex).filter
        (fun sv => sv.spec.required)
    if missingPositionals.length > 0 then
      let missing :=
        String.intercalate (", ") (missingPositionals.map (fun sv => sv.spec.name))
      let s :=
        if st.positionalsToParse.length - st.positionalsIndex == 1 then ("")
        else ("s")
      Except.error (ParseError.cmdError (("missing argument") ++ s ++ (": ") ++ missing))
    else Except.ok ()
  else Except.ok ()

/-- The missing-flags check after the scan loop: a required flag whose
value is still the `NOTHING` sentinel was never supplied. -/
def checkMissingFlags (st : ScanState) : Except ParseError Unit :=
  let missingFlags :=
    st.flagsToParse.filterMap (fun p =>
      if p.2.spec.required && p.2.value == Value.nothing then
        Option.some p.2.spec.name
      else Option.none)
  if missingFlags.isEmpty then Except.ok ()
  else
    let missing := String.intercalate (", ") (sortStrings missingFlags)
    let s := if missingFlags.length == 1 then ("") else ("s")
    Except.error (ParseError.cmdError (("missing mandatory flag") ++ s ++ (": ") ++ missing))

/-- The mandatory mutual-exclusion check after the scan loop. -/
def checkMutexes (st : ScanState) : Except ParseError Unit :=
  match st.mutexes.find? (fun p => p.2.satisfied.isNone && !p.2.optional) with
  | Option.some p =>
    Except.error (ParseError.cmdError (("exactly one of the following is required: ") ++ String.intercalate (", ") p.2.eligibleFlags))
  | Option.none => Except.ok ()

/-- The final value of one positional slot: an unfilled optional
positional becomes `None` without conversion; otherwise the converter
(or the identity) is applied. -/
def finalPositionalValue (sv : SpecAndValue) : Value :=
  let converter :=
    match sv.spec.converter with
    | Option.some c => c
    | Option.none => fun v => v
  if !sv.spec.required && sv.value == Value.nothing then Value.none
  else applyConverter converter sv.value

/-- The final value of one flag: `None` stays `None` without conversion;
otherwise the converter (or the identity) is applied. -/
def finalFlagValue (sv : SpecAndValue) : Value :=
  let converter :=
    match sv.spec.converter with
    | Option.some c => c
    | Option.none => fun v => v
  if sv.value != Value.none then applyConverter converter sv.value
  else sv.value

/-- The final `args`/`kwargs` assembly and conversion at the end of
`_parse_command`. -/
def mkParseResult (cmd : Command) (st : ScanState) : ParseResult :=
  { args :=
      st.positionalsToParse.foldl
        (fun acc sv => dictInsert acc sv.spec.dest (finalPositionalValue sv)) [],
    kwargs :=
      st.flagsToParse.foldl
        (fun acc p => dictInsert acc p.2.spec.dest (finalFlagValue p.2)) [],
    lessLogging := cmd.lessLogging }

/-- Everything `_parse_command` does after its scan loop. -/
def finalize (cmd : Command) (st : ScanState) : Except ParseError ParseResult := do
  checkMissingPositionals st
  checkMissingFlags st
  checkMutexes st
  Except.ok (mkParseResult cmd st)

/-- The initial flag-value table: every flag starts at its default,
unset. -/
def buildFlagsToParse (flags : List ArgSpec) : List (String × SpecAndValue) :=
  flags.foldl
    (fun acc spec =>
      dictInsert acc spec.name { spec := spec, value := spec.default, isSet := false })
    []

/-- The initial mutual-exclusion tracking state. -/
def initMutexes (cmd : Command) : List (String × MutexState) :=
  cmd.mutexes.map (fun p =>
    (p.1, { satisfied := Option.none, optional := p.2.1.optional,
            eligibleFlags := p.2.2 }))

/-- The initial positional-value table: every positional starts at its
default, unset. -/
def initPositionals (cmd : Command) : List SpecAndValue :=
  cmd.positionals.map (fun spec =>
    { spec := spec, value := spec.default, isSet := false })

/-- The scan state at the top of the loop. -/
def initState (cmd : Command) (rest : List String) : ScanState :=
  { flagsToParse := buildFlagsToParse cmd.flags,
    positionalsToParse := initPositionals cmd,
    positionalsIndex := 0,
    mutexes := initMutexes cmd,
    doneWithFlags := false,
    rest := rest }

/-- Model of `parse` followed by `_parse_command`: scanning starts at
index 1 (index 0 is the program name).  A passthrough command returns
all remaining tokens verbatim without scanning. -/
def parseCommand (cmd : Command) (argv : List String) :
    Except ParseError ParseResult :=
  match cmd.passthrough with
  | Option.some name =>
    Except.ok { args := [(name, Value.vlist ((argv.drop 1).map Value.str))],
                kwargs := [], lessLogging := cmd.lessLogging }
  | Option.none =>
    let rest := argv.drop 1
    match scanLoop cmd (rest.length + 1) (initState cmd rest) with
    | Except.error e => Except.error e
    | Except.ok st => finalize cmd st

/-- Partial model of the Python builtin `str` applied to parse values, the
converter `Command.from_function` installs for `str`-typed parameters.
On the string values the parser produces it is the identity. -/
def pyStr : Value → Value
  | Value.str s => Value.str s
  | Value.bool b => Value.str (if b then ("True") else ("False"))
  | Value.none => Value.str ("None")
  | Value.nothing => Value.str ("NOTHING")
  | Value.vlist _ => Value.str ("")

/-- Shorthand for building an `ArgSpec`. -/
def mkSpec (name : String) (n : ArgCount) (required : Bool) (default : Value)
    (conv : Option (Value → Value)) (dest : String) : ArgSpec :=
  { name := name, n := n, required := required, default := default,
    converter := conv, dest := dest }

/-- The command `Command.from_function` builds for
`f(word: str, *, n: bool, file: Optional[str])`: one required positional
`word` with the `str` converter, a switch `-n`, and an optional one-arity
flag `-file` defaulting to `None` with the `str` converter. -/
def exC3 : Command :=
  { namesTaken := ["word", "-n", "-file"],
    flags := [mkSpec ("-n") ArgCount.zero false (Value.bool false) Option.none ("n"),
              mkSpec ("-file") ArgCount.one false Value.none (Option.some pyStr) ("file")],
    positionals := [mkSpec ("word") ArgCount.one true Value.nothing (Option.some pyStr) ("word")],
    passthrough := Option.none, mutexes := [], lessLogging := true }

/-- A command with a single required one-arity flag `-x`. -/
def exFlagOne : Command :=
  { namesTaken := ["-x"],
    flags := [mkSpec ("-x") ArgCount.one true Value.nothing Option.none ("x")],
    positionals := [], passthrough := Option.none, mutexes := [],
    lessLogging := true }

/-- A command with a single required one-arity positional `word`. -/
def exWord : Command :=
  { namesTaken := ["word"],
    flags := [],
    positionals := [mkSpec ("word") ArgCount.one true Value.nothing Option.none ("word")],
    passthrough := Option.none, mutexes := [], lessLogging := true }

/-- A command whose only arguments are two optional one-arity flags `-a`
and `-b` in one mutual-exclusion group, mandatory or optional according
to `opt`. -/
def mutexCmd (opt : Bool) : Command :=
  { namesTaken := ["-a", "-b"],
    flags := [mkSpec ("-a") ArgCount.one false Value.none Option.none ("a"),
              mkSpec ("-b") ArgCount.one false Value.none Option.none ("b")],
    positionals := [], passthrough := Option.none,
    mutexes := [(("m"), ({ optional := opt, mutexId := "m" }, ["-a", "-b"]))],
    lessLogging := true }

/-- Like `mutexCmd false` but with an additional required flag `-c`. -/
def mutexCmdExtra : Command :=
  { namesTaken := ["-a", "-b", "-c"],
    flags := [mkSpec ("-a") ArgCount.one false Value.none Option.none ("a"),
              mkSpec ("-b") ArgCount.one false Value.none Option.none ("b"),
              mkSpec ("-c") ArgCount.one true Value.nothing Option.none ("c")],
    positionals := [], passthrough := Option.none,
    mutexes := [(("m"), ({ optional := false, mutexId := "m" }, ["-a", "-b"]))],
    lessLogging := true }

/-- The scan state of a parse of `mutexCmd opt` after consuming
`-a=va`, with `rest` still to scan. -/
def mutexSt1 (opt : Bool) (va : String) (rest : List String) : ScanState :=
  { flagsToParse :=
      [(("-a"), { spec := mkSpec ("-a") ArgCount.one false Value.none Option.none ("a"),
                  value := Value.str va, isSet := true }),
       (("-b"), { spec := mkSpec ("-b") ArgCount.one false Value.none Option.none ("b"),
                  value := Value.none, isSet := false })],
    positionalsToParse := [], positionalsIndex := 0,
    mutexes := [(("m"), { satisfied := Option.some ("-a"), optional := opt,
                          eligibleFlags := ["-a", "-b"] })],
    doneWithFlags := false, rest := rest }

/-- A converter that ignores its input, to witness that converters are
not applied to `None`. -/
def exConv : Value → Value := fun _ => Value.str ("CONV")

/-- A command with one optional one-arity flag `-x` defaulting to `None`
whose converter is `exConv`. -/
def exC7x : Command :=
  { namesTaken := ["-x"],
    flags := [mkSpec ("-x") ArgCount.one false Value.none (Option.some exConv) ("x")],
    positionals := [], passthrough := Option.none, mutexes := [],
    lessLogging := true }

/-- A command with one optional one-arity flag `-x` whose default is the
string `"D"` and whose converter is abstract. -/
def c7aCmd (c : Value → Value) : Command :=
  { namesTaken := ["-x"],
    flags := [mkSpec ("-x") ArgCount.one false (Value.str ("D")) (Option.some c) ("x")],
    positionals := [], passthrough := Option.none, mutexes := [],
    lessLogging := true }

/-- A command with one required many-arity positional whose converter is
abstract. -/
def c7bCmd (c : Value → Value) : Command :=
  { namesTaken := ["words"],
    flags := [],
    positionals := [mkSpec ("words") ArgCount.many true (Value.vlist []) (Option.some c) ("words")],
    passthrough := Option.none, mutexes := [], lessLogging := true }

/-- A command with one required one-arity positional and no converter. -/
def c7cCmd : Command :=
  { namesTaken := ["w"],
    flags := [],
    positionals := [mkSpec ("w") ArgCount.one true Value.nothing Option.none ("w")],
    passthrough := Option.none, mutexes := [], lessLogging := true }

/-- A command with one optional one-arity flag `-y` defaulting to `None`
with an abstract converter. -/
def c7dCmd (c : Value → Value) : Command :=
  { namesTaken := ["-y"],
    flags := [mkSpec ("-y") ArgCount.one false Value.none (Option.some c) ("y")],
    positionals := [], passthrough := Option.none, mutexes := [],
    lessLogging := true }

/-- A passthrough command. -/
def exPass : Command :=
  { namesTaken := [], flags := [], positionals := [],
    passthrough := Option.some ("args"), mutexes := [], lessLogging := true }

/-- A latched scan state for `exWord` with one token left. -/
def exLatched : ScanState :=
  { flagsToParse := [],
    positionalsToParse := [{ spec := mkSpec ("word") ArgCount.one true Value.nothing Option.none ("word"),
                             value := Value.nothing, isSet := false }],
    positionalsIndex := 0, mutexes := [], doneWithFlags := true,
    rest := ["x"] }

/-- A group with one subcommand. -/
def exGroup : List (String × CmdOrGroup) :=
  [(("alpha"), CmdOrGroup.command exPass)]

/-- A sequence of spec-building calls: one required positional, then a
switch. -/
def exOps : List AddOp :=
  [AddOp.argOp ("w") true ArgCount.one Option.none,
   AddOp.switchOp ("-v") ("")]

/-- The command `exOps` builds. -/
def exBuiltCmd : Command :=
  { namesTaken := ["w", "-v"],
    flags := [mkSpec ("-v") ArgCount.zero false (Value.bool false) Option.none ("-v")],
    positionals := [mkSpec ("w") ArgCount.one true Value.nothing Option.none ("w")],
    passthrough := Option.none, mutexes := [], lessLogging := true }

/-- A command whose positionals already contain a many-arity one. -/
def exManyPosCmd : Command :=
  { namesTaken := ["xs"],
    flags := [],
    positionals := [mkSpec ("xs") ArgCount.many true (Value.vlist []) Option.none ("xs")],
    passthrough := Option.none, mutexes := [], lessLogging := true }

/-- A command whose positionals already contain an optional one. -/
def exOptPosCmd : Command :=
  { namesTaken := ["opt"],
    flags := [],
    positionals := [mkSpec ("opt") ArgCount.one false Value.nothing Option.none ("opt")],
    passthrough := Option.none, mutexes := [], lessLogging := true }

/-- What the latch guarantees about a scan result: help and version are
never signalled and, on success, the flag table and mutex state are
untouched and the latch is still set. -/
def latchInvariant (st : ScanState) : Except ParseError ScanState → Prop
  | Except.ok st2 =>
    st2.flagsToParse = st.flagsToParse ∧ st2.mutexes = st.mutexes ∧
    st2.doneWithFlags = true
  | Except.error e =>
    e ≠ ParseError.helpError ∧ e ≠ ParseError.versionError

/-- The structural invariant maintained by the spec builders: argument
names are unique and tracked in `namesTaken`, a list-valued positional
is never followed by another positional, and a required positional never
follows an optional one. -/
def commandInv (cmd : Command) : Prop :=
  ((cmd.positionals.map ArgSpec.name) ++ (cmd.flags.map ArgSpec.name)).Nodup ∧
  (∀ n, n ∈ cmd.positionals.map ArgSpec.name → n ∈ cmd.namesTaken) ∧
  (∀ n, n ∈ cmd.flags.map ArgSpec.name → n ∈ cmd.namesTaken) ∧
  List.Pairwise (fun a _ => a.n ≠ ArgCount.many) cmd.positionals ∧
  List.Pairwise (fun a b => a.required = false → b.required = false) cmd.positionals

/-- A flag name is dead in a flag table when it is either unknown there
or already marked set: scanning a further occurrence of that name is
then guaranteed to fail, with the unknown-flag or the repeated-flag
error. -/
def flagDead (fl : List (String × SpecAndValue)) (n : String) : Prop :=
  ∀ sv, assocGet fl n = Option.some sv → sv.isSet = true

/-! ## Lemmas: strings and character lists -/

/-- Two strings are equal exactly when their character lists are. -/
theorem stringEqIffData (a b : String) : a = b ↔ a.data = b.data :=
  ⟨congrArg String.data, fun h => by cases a; cases b; exact congrArg String.mk h⟩

/-- An element that does not satisfy `p` survives `dropWhile p`. -/
theorem memDropWhileOfNot {α : Type} (p : α → Bool) (c : α) (hc : p c = false) :
    ∀ l : List α, c ∈ l → c ∈ l.dropWhile p := by
  intro l
  induction l with
  | nil => intro h; exact absurd h (List.not_mem_nil c)
  | cons a tl ih =>
    intro h
    by_cases ha : p a = true
    · rw [List.dropWhile_cons_of_pos ha]
      rcases List.mem_cons.mp h with h1 | h1
      · rw [h1] at hc; rw [hc] at ha; exact absurd ha (by simp)
      · exact ih h1
    · rw [List.dropWhile_cons_of_neg ha]
      exact h

/-- A non-whitespace character survives `stripWs`. -/
theorem memStripWs {c : Char} (hc : isAsciiWs c = false) {cs : List Char}
    (h : c ∈ cs) : c ∈ stripWs cs := by
  unfold stripWs
  rw [List.mem_reverse]
  apply memDropWhileOfNot _ _ hc
  rw [List.mem_reverse]
  exact memDropWhileOfNot _ _ hc _ h

/-- A character other than a sign survives `dropSign`. -/
theorem memDropSign {c : Char} (hp : c ≠ '+') (hm : c ≠ '-') {cs : List Char}
    (h : c ∈ cs) : c ∈ dropSign cs := by
  match cs with
  | [] => exact absurd h (List.not_mem_nil c)
  | a :: tl =>
    simp only [dropSign]
    by_cases ha : (a == '+' || a == '-') = true
    · rw [if_pos ha]
      rcases List.mem_cons.mp h with h1 | h1
      · exfalso
        rcases Bool.or_eq_true_iff.mp ha with h2 | h2
        · exact hp (h1.trans (beq_iff_eq.mp h2))
        · exact hm (h1.trans (beq_iff_eq.mp h2))
      · exact h1
    · rw [if_neg ha]
      exact h

/-- `splitOnceChar` decomposes its input around the separator. -/
theorem splitOnceCharSome {ch : Char} : ∀ {cs a b : List Char},
    splitOnceChar cs ch = Option.some (a, b) → cs = a ++ ch :: b := by
  intro cs
  induction cs with
  | nil => intro a b h; exact absurd h (by simp [splitOnceChar])
  | cons c tl ih =>
    intro a b h
    unfold splitOnceChar at h
    by_cases hc : (c == ch) = true
    · rw [if_pos hc] at h
      obtain ⟨ha, hb⟩ := Prod.mk.injEq .. ▸ Option.some.inj h
      rw [← ha, ← hb, List.nil_append, beq_iff_eq.mp hc]
    · rw [if_neg hc] at h
      cases hrec : splitOnceChar tl ch with
      | none => rw [hrec] at h; exact absurd h (by simp)
      | some p =>
        rw [hrec] at h
        obtain ⟨a2, b2⟩ := p
        obtain ⟨ha, hb⟩ := Prod.mk.injEq .. ▸ Option.some.inj h
        rw [← ha, ← hb, List.cons_append]
        rw [ih hrec]

/-- If the separator does not occur, `splitOnceChar` finds nothing. -/
theorem splitOnceCharNone {ch : Char} : ∀ {cs : List Char},
    ch ∉ cs → splitOnceChar cs ch = Option.none := by
  intro cs
  induction cs with
  | nil => intro _; rfl
  | cons c tl ih =>
    intro h
    unfold splitOnceChar
    have hc : (c == ch) = false := by
      cases hcc : c == ch
      · rfl
      · exact absurd (List.mem_cons_self c tl) (beq_iff_eq.mp hcc ▸ h)
    rw [if_neg (by rw [hc]; exact Bool.false_ne_true)]
    rw [ih (fun hm => h (List.mem_cons_of_mem c hm))]

/-- `splitOnceChar` on a list with a first separator between `a` and
`b`. -/
theorem splitOnceCharAppend {ch : Char} : ∀ {a : List Char} (b : List Char),
    ch ∉ a → splitOnceChar (a ++ ch :: b) ch = Option.some (a, b) := by
  intro a
  induction a with
  | nil =>
    intro b _
    rw [List.nil_append]
    simp only [splitOnceChar]
    rw [if_pos (beq_self_eq_true ch)]
  | cons c tl ih =>
    intro b h
    have hc : ¬((c == ch) = true) := by
      intro hcc
      exact h (beq_iff_eq.mp hcc ▸ List.mem_cons_self c tl)
    rw [List.cons_append]
    simp only [splitOnceChar]
    rw [if_neg hc, ih b (fun hm => h (List.mem_cons_of_mem c hm))]

/-! ## Lemmas: valid decimal strings contain no `=` -/

/-- A list containing `=` is not all digits. -/
theorem allDigitFalseOfMemEq {cs : List Char} (h : ('=') ∈ cs) :
    cs.all Char.isDigit = false := by
  cases hall : cs.all Char.isDigit
  · rfl
  · exact absurd (List.all_eq_true.mp hall '=' h) (by decide)

/-- A list containing `=` is not a decimal part. -/
theorem parseDecimalPartFalseOfMemEq {cs : List Char} (h : ('=') ∈ cs) :
    parseDecimalPart cs = false := by
  unfold parseDecimalPart
  cases hsp : splitOnceChar cs '.' with
  | none =>
    unfold isDigitsNonEmpty
    rw [allDigitFalseOfMemEq h, Bool.and_false]
  | some p =>
    obtain ⟨a, b⟩ := p
    have hcs := splitOnceCharSome hsp
    rw [hcs] at h
    rcases List.mem_append.mp h with h1 | h1
    · simp only [allDigitFalseOfMemEq h1, Bool.false_and]
    · rcases List.mem_cons.mp h1 with h2 | h2
      · exact absurd h2.symm (by decide)
      · simp only [allDigitFalseOfMemEq h2, Bool.false_and, Bool.and_false]

/-- A list containing `=` is not an exponent part. -/
theorem parseExponentFalseOfMemEq {cs : List Char} (h : ('=') ∈ cs) :
    parseExponent cs = false := by
  unfold parseExponent isDigitsNonEmpty
  rw [allDigitFalseOfMemEq (memDropSign (by decide) (by decide) h), Bool.and_false]

/-- A list containing `=` is not a numeric value. -/
theorem parseNumericValueFalseOfMemEq {cs : List Char} (h : ('=') ∈ cs) :
    parseNumericValue cs = false := by
  unfold parseNumericValue
  cases hsp : splitOnceChar cs 'e' with
  | none => exact parseDecimalPartFalseOfMemEq h
  | some p =>
    obtain ⟨m, ex⟩ := p
    have hcs := splitOnceCharSome hsp
    rw [hcs] at h
    rcases List.mem_append.mp h with h1 | h1
    · simp only [parseDecimalPartFalseOfMemEq h1, Bool.false_and]
    · rcases List.mem_cons.mp h1 with h2 | h2
      · exact absurd h2.symm (by decide)
      · simp only [parseExponentFalseOfMemEq h2, Bool.and_false]

/-- A list containing `=` is not a numeric string. -/
theorem parseNumericStringFalseOfMemEq {cs0 : List Char} (h : ('=') ∈ cs0) :
    parseNumericString cs0 = false := by
  unfold parseNumericString
  have hmem : ('=') ∈ dropSign cs0 := memDropSign (by decide) (by decide) h
  have hinf : (dropSign cs0 == ['i', 'n', 'f'] ||
      dropSign cs0 == ['i', 'n', 'f', 'i', 'n', 'i', 't', 'y']) = false := by
    cases h1 : dropSign cs0 == ['i', 'n', 'f'] with
    | true =>
      rw [beq_iff_eq.mp h1] at hmem
      exact absurd hmem (by decide)
    | false =>
      cases h2 : dropSign cs0 == ['i', 'n', 'f', 'i', 'n', 'i', 't', 'y'] with
      | true =>
        rw [beq_iff_eq.mp h2] at hmem
        exact absurd hmem (by decide)
      | false => rfl
  rw [if_neg (by rw [hinf]; exact Bool.false_ne_true)]
  have htake : ∀ (k : Nat) (lit : List Char), ('=') ∉ lit →
      (dropSign cs0).take k = lit → ((dropSign cs0).drop k).all Char.isDigit = false := by
    intro k lit hlit htk
    apply allDigitFalseOfMemEq
    rcases List.mem_append.mp ((List.take_append_drop k (dropSign cs0)) ▸ hmem) with h1 | h1
    · exact absurd (htk ▸ h1) hlit
    · exact h1
  by_cases h3 : ((dropSign cs0).take 3 == ['n', 'a', 'n']) = true
  · rw [if_pos h3]
    exact htake 3 _ (by decide) (beq_iff_eq.mp h3)
  · rw [if_neg h3]
    by_cases h4 : ((dropSign cs0).take 4 == ['s', 'n', 'a', 'n']) = true
    · rw [if_pos h4]
      exact htake 4 _ (by decide) (beq_iff_eq.mp h4)
    · rw [if_neg h4]
      exact parseNumericValueFalseOfMemEq hmem

/-- A character list containing `=` is never a valid decimal numeric
string: `=` is not whitespace, not an underscore, unchanged by
lower-casing, and not accepted by any production of the grammar. -/
theorem isDecimalNumberLFalseOfMemEq {cs : List Char} (h : ('=') ∈ cs) :
    isDecimalNumberL cs = false := by
  unfold isDecimalNumberL
  apply parseNumericStringFalseOfMemEq
  have h1 : ('=') ∈ stripWs cs := memStripWs (by decide) h
  have h2 : ('=') ∈ (stripWs cs).filter (fun c => c != '_') :=
    List.mem_filter.mpr ⟨h1, by decide⟩
  have h3 := List.mem_map_of_mem Char.toLower h2
  exact h3

/-! ## Lemmas: classification of flag tokens -/

/-- The character data of a `name=value` token. -/
theorem dataAppendEq (f v : String) :
    (f ++ ("=") ++ v).data = f.data ++ ('=') :: v.data := by
  rw [String.data_append, String.data_append, List.append_assoc]
  rfl

/-- A `name=value` token contains `=`. -/
theorem memEqToken (f v : String) : ('=') ∈ (f ++ ("=") ++ v).data := by
  rw [dataAppendEq]
  exact List.mem_append.mpr (Or.inr (List.mem_cons_self _ _))

/-- A string containing `=` is not equal to a literal without one. -/
theorem beqFalseOfMemEq {t : String} (lit : String) (h : ('=') ∈ t.data)
    (hlit : ('=') ∉ lit.data) : (t == lit) = false := by
  cases e : t == lit
  · rfl
  · exact absurd ((stringEqIffData t lit).mp (beq_iff_eq.mp e) ▸ h) hlit

/-- A token containing `=` is not a help token. -/
theorem isHelpFlagFalseOfMemEq {t : String} (h : ('=') ∈ t.data) :
    isHelpFlag t = false := by
  unfold isHelpFlag
  rw [beqFalseOfMemEq ("-h") h (by decide), beqFalseOfMemEq ("-help") h (by decide),
    beqFalseOfMemEq ("--help") h (by decide), beqFalseOfMemEq ("-?") h (by decide)]
  rfl

/-- A token containing `=` is not a version token. -/
theorem isVersionFlagFalseOfMemEq {t : String} (h : ('=') ∈ t.data) :
    isVersionFlag t = false := by
  unfold isVersionFlag
  rw [beqFalseOfMemEq ("-version") h (by decide),
    beqFalseOfMemEq ("--version") h (by decide)]
  rfl

/-- A token containing `=` is not the `--` latch token. -/
theorem beqDashDashFalseOfMemEq {t : String} (h : ('=') ∈ t.data) :
    (t == "--") = false :=
  beqFalseOfMemEq ("--") h (by decide)

/-- Appending `=value` to a flag-shaped name keeps it flag-shaped. -/
theorem isFlagEqForm (f v : String) (hf : isFlag f = true) :
    isFlag (f ++ ("=") ++ v) = true := by
  unfold isFlag at hf ⊢
  rw [dataAppendEq]
  cases hfd : f.data with
  | nil => rw [hfd] at hf; exact absurd hf (by simp)
  | cons c rest =>
    rw [hfd] at hf
    rw [List.cons_append]
    show (c == '-' && !(rest ++ ('=') :: v.data).isEmpty &&
      !isDecimalNumberL (rest ++ ('=') :: v.data)) = true
    simp only [Bool.and_eq_true] at hf
    have hmem : ('=') ∈ rest ++ ('=') :: v.data :=
      List.mem_append.mpr (Or.inr (List.mem_cons_self _ _))
    rw [isDecimalNumberLFalseOfMemEq hmem]
    have hne2 : (!(rest ++ ('=') :: v.data).isEmpty) = true := by cases rest <;> rfl
    simp only [Bool.and_eq_true]
    exact ⟨⟨hf.1.1, hne2⟩, rfl⟩

/-- A hyphen followed by a decimal number is not a flag. -/
theorem isFlagDashDecimal {s : String} (h : isDecimalNumber s = true) :
    isFlag (("-") ++ s) = false := by
  unfold isFlag
  rw [String.data_append]
  show (('-' == '-') && !s.data.isEmpty && !isDecimalNumberL s.data) = false
  unfold isDecimalNumber at h
  rw [h]
  simp

/-- A hyphen followed by a decimal number is not equal to any literal
whose tail is not a decimal number. -/
theorem dashDecimalBeqLitFalse {s : String} (h : isDecimalNumber s = true)
    (lit : String) (hlit : isDecimalNumberL lit.data.tail = false) :
    ((("-") ++ s) == lit) = false := by
  cases e : ("-") ++ s == lit
  · rfl
  · exfalso
    have hdata := (stringEqIffData _ _).mp (beq_iff_eq.mp e)
    rw [String.data_append] at hdata
    have hs : s.data = lit.data.tail := by
      rw [← hdata]
      rfl
    unfold isDecimalNumber at h
    rw [hs, hlit] at h
    exact Bool.false_ne_true h

/-- A hyphen followed by a decimal number is not a help token. -/
theorem isHelpFlagDashDecimal {s : String} (h : isDecimalNumber s = true) :
    isHelpFlag (("-") ++ s) = false := by
  unfold isHelpFlag
  rw [dashDecimalBeqLitFalse h ("-h") (by decide),
    dashDecimalBeqLitFalse h ("-help") (by decide),
    dashDecimalBeqLitFalse h ("--help") (by decide),
    dashDecimalBeqLitFalse h ("-?") (by decide)]
  rfl

/-- A hyphen followed by a decimal number is not a version token. -/
theorem isVersionFlagDashDecimal {s : String} (h : isDecimalNumber s = true) :
    isVersionFlag (("-") ++ s) = false := by
  unfold isVersionFlag
  rw [dashDecimalBeqLitFalse h ("-version") (by decide),
    dashDecimalBeqLitFalse h ("--version") (by decide)]
  rfl

/-- A hyphen followed by a decimal number is not the `--` latch token. -/
theorem dashDecimalNeDashDash {s : String} (h : isDecimalNumber s = true) :
    ((("-") ++ s) == "--") = false :=
  dashDecimalBeqLitFalse h ("--") (by decide)

/-! ## Lemmas: `splitFlagEq` -/

/-- Splitting a `name=value` token whose name has no `=`. -/
theorem splitFlagEqForm (f v : String) (hne : ('=') ∉ f.data) :
    splitFlagEq (f ++ ("=") ++ v) = (f, Option.some v) := by
  unfold splitFlagEq
  rw [dataAppendEq, splitOnceCharAppend v.data hne]

/-- Splitting a token without `=` finds no value. -/
theorem splitFlagEqNone (f : String) (hne : ('=') ∉ f.data) :
    splitFlagEq f = (f, Option.none) := by
  unfold splitFlagEq
  rw [splitOnceCharNone hne]

/-! ## Lemmas: association lists and the initial state -/

/-- Updating an existing key makes lookup return the new value. -/
theorem assocGetAssocSetSelf {α : Type} :
    ∀ (l : List (String × α)) (k : String) (v w : α),
    assocGet l k = Option.some v → assocGet (assocSet l k w) k = Option.some w := by
  intro l
  induction l with
  | nil =>
    intro k v w h
    exact absurd h (by simp [assocGet])
  | cons p tl ih =>
    intro k v w h
    obtain ⟨pk, pv⟩ := p
    simp only [assocGet, assocSet] at h ⊢
    by_cases hk : (pk == k) = true
    · rw [if_pos hk]
      simp only [assocGet]
      rw [if_pos hk]
    · rw [if_neg hk]
      rw [if_neg hk] at h
      simp only [assocGet]
      rw [if_neg hk]
      exact ih k v w h

/-- Every mutex state built by `initMutexes` starts unsatisfied. -/
theorem assocGetMapSatisfiedNone :
    ∀ (l : List (String × (Mutex × List String))) (mid : String) (m : MutexState),
    assocGet (l.map (fun p =>
      (p.1, ({ satisfied := Option.none, optional := p.2.1.optional,
               eligibleFlags := p.2.2 } : MutexState)))) mid = Option.some m →
    m.satisfied = Option.none := by
  intro l
  induction l with
  | nil =>
    intro mid m h
    exact absurd h (by simp [assocGet])
  | cons p tl ih =>
    intro mid m h
    simp only [List.map_cons, assocGet] at h
    by_cases hk : (p.1 == mid) = true
    · rw [if_pos hk] at h
      cases Option.some.inj h
      rfl
    · rw [if_neg hk] at h
      exact ih mid m h

/-- Every mutex state at the start of a parse is unsatisfied. -/
theorem initMutexesSatisfiedNone {cmd : Command} {mid : String} {m : MutexState}
    (h : assocGet (initMutexes cmd) mid = Option.some m) :
    m.satisfied = Option.none :=
  assocGetMapSatisfiedNone cmd.mutexes mid m h

/-! ## Lemmas: the consume helpers move the cursor forward -/

/-- `consumeOne` succeeds exactly by splitting off the head token. -/
theorem consumeOneOk {name : String} :
    ∀ {rest : List String} {v : String} {tl2 : List String},
    consumeOne rest name = Except.ok (v, tl2) → rest = v :: tl2 := by
  intro rest v tl2 h
  match rest with
  | [] => exact absurd h (by simp [consumeOne])
  | a :: tl =>
    simp only [consumeOne] at h
    by_cases hf : isFlag a = true
    · rw [if_pos hf] at h
      exact absurd h (by simp)
    · rw [if_neg hf] at h
      injection h with h2
      injection h2 with h3 h4
      rw [h3, h4]

/-- The greedy loop partitions its input. -/
theorem consumeMultiGoLength (d : Bool) :
    ∀ (rest r rest2 : List String), consumeMultiGo rest d = (r, rest2) →
    r.length + rest2.length = rest.length := by
  intro rest
  induction rest with
  | nil =>
    intro r rest2 h
    injection h with h1 h2
    rw [← h1, ← h2]
    rfl
  | cons a tl ih =>
    intro r rest2 h
    simp only [consumeMultiGo] at h
    split at h
    · cases hgo : consumeMultiGo tl d with
      | mk r0 rs0 =>
        rw [hgo] at h
        injection h with h1 h2
        have := ih r0 rs0 hgo
        rw [← h1, ← h2]
        simp only [List.length_cons]
        omega
    · injection h with h1 h2
      rw [← h1, ← h2]
      simp

/-- A successful `consumeMulti` strictly shortens the remaining
tokens. -/
theorem consumeMultiOk {name : String} {d : Bool} :
    ∀ {rest : List String} {r : List String} {rest2 : List String},
    consumeMulti rest name d = Except.ok (r, rest2) → rest2.length < rest.length := by
  intro rest r rest2 h
  match rest with
  | [] => exact absurd h (by simp [consumeMulti])
  | a :: tl =>
    simp only [consumeMulti] at h
    cases hgo : consumeMultiGo (a :: tl) d with
    | mk r0 rs0 =>
      rw [hgo] at h
      simp only [] at h
      by_cases hr : r0.isEmpty = true
      · rw [if_pos hr] at h
        exact absurd h (by simp)
      · rw [if_neg hr] at h
        injection h with h2
        injection h2 with h3 h4
        have hlen := consumeMultiGoLength d (a :: tl) r0 rs0 hgo
        have hr0 : 0 < r0.length := by
          cases r0 with
          | nil => exact absurd rfl hr
          | cons _ _ => simp
        rw [← h4]
        simp only [List.length_cons] at hlen ⊢
        omega

/-- `consumeMulti` fails only with `CmdError`s. -/
theorem consumeMultiError {name : String} {d : Bool} :
    ∀ {rest : List String} {e : ParseError},
    consumeMulti rest name d = Except.error e →
    e ≠ ParseError.helpError ∧ e ≠ ParseError.versionError := by
  intro rest e h
  match rest with
  | [] =>
    simp only [consumeMulti] at h
    injection h with h1
    rw [← h1]
    exact ⟨by simp, by simp⟩
  | a :: tl =>
    simp only [consumeMulti] at h
    cases hgo : consumeMultiGo (a :: tl) d with
    | mk r0 rs0 =>
      rw [hgo] at h
      simp only [] at h
      by_cases hr : r0.isEmpty = true
      · rw [if_pos hr] at h
        injection h with h1
        rw [← h1]
        exact ⟨by simp, by simp⟩
      · rw [if_neg hr] at h
        exact absurd h (by simp)

/-! ## Lemmas: one scan step consumes at least one token -/

/-- A successful `processFlag` keeps the latch and leaves at most `tl`
unconsumed. -/
theorem processFlagOk {cmd : Command} {name : String} {argvalue : Option String}
    {tl : List String} {st st2 : ScanState}
    (h : processFlag cmd name argvalue tl st = Except.ok st2) :
    st2.rest.length ≤ tl.length ∧ st2.doneWithFlags = st.doneWithFlags := by
  unfold processFlag at h
  cases hget : assocGet st.flagsToParse name with
  | none => rw [hget] at h; exact absurd h (by simp)
  | some sv =>
    rw [hget] at h
    simp only [] at h
    by_cases hset : sv.isSet = true
    · rw [if_pos hset] at h; exact absurd h (by simp)
    · rw [if_neg hset] at h
      cases hmx : mutexStep cmd name st.mutexes with
      | error e => rw [hmx] at h; exact absurd h (by simp)
      | ok m2 =>
        rw [hmx] at h
        simp only [] at h
        cases hn : sv.spec.n with
        | zero =>
          rw [hn] at h
          simp only [] at h
          cases argvalue with
          | some av =>
            simp only [] at h
            by_cases h1 : (av == "true") = true
            · rw [if_pos h1] at h
              injection h with h2
              rw [← h2]
              exact ⟨Nat.le_refl _, rfl⟩
            · rw [if_neg h1] at h
              by_cases h2 : (av == "false") = true
              · rw [if_pos h2] at h
                injection h with h3
                rw [← h3]
                exact ⟨Nat.le_refl _, rfl⟩
              · rw [if_neg h2] at h
                exact absurd h (by simp)
          | none =>
            simp only [] at h
            injection h with h2
            rw [← h2]
            exact ⟨Nat.le_refl _, rfl⟩
        | one =>
          rw [hn] at h
          simp only [] at h
          cases argvalue with
          | none =>
            simp only [] at h
            cases hco : consumeOne tl sv.spec.name with
            | error e => rw [hco] at h; exact absurd h (by simp)
            | ok p =>
              obtain ⟨v, tl2⟩ := p
              rw [hco] at h
              simp only [] at h
              injection h with h2
              rw [← h2]
              constructor
              · rw [consumeOneOk hco]
                exact Nat.le_succ _
              · rfl
          | some av =>
            simp only [] at h
            injection h with h2
            rw [← h2]
            exact ⟨Nat.le_refl _, rfl⟩
        | many =>
          rw [hn] at h
          simp only [] at h
          cases argvalue with
          | none =>
            simp only [] at h
            cases hcm : consumeMulti tl sv.spec.name false with
            | error e => rw [hcm] at h; exact absurd h (by simp)
            | ok p =>
              obtain ⟨vs, tl2⟩ := p
              rw [hcm] at h
              simp only [] at h
              injection h with h2
              rw [← h2]
              exact ⟨Nat.le_of_lt (consumeMultiOk hcm), rfl⟩
          | some av =>
            simp only [] at h
            injection h with h2
            rw [← h2]
            exact ⟨Nat.le_refl _, rfl⟩

/-- A successful `bindPositional` touches only the positional state and
the remaining tokens, consuming at least the current token. -/
theorem bindPositionalOk {cmd : Command} {arg : String} {tl : List String}
    {st st2 : ScanState} (h : bindPositional cmd arg tl st = Except.ok st2) :
    st2.rest.length ≤ tl.length ∧ st2.flagsToParse = st.flagsToParse ∧
    st2.mutexes = st.mutexes ∧ st2.doneWithFlags = st.doneWithFlags := by
  unfold bindPositional at h
  cases hget : st.positionalsToParse[st.positionalsIndex]? with
  | none => rw [hget] at h; exact absurd h (by simp)
  | some sv =>
    rw [hget] at h
    simp only [] at h
    cases hn : sv.spec.n with
    | one =>
      rw [hn] at h
      simp only [] at h
      injection h with h2
      rw [← h2]
      exact ⟨Nat.le_refl _, rfl, rfl, rfl⟩
    | many =>
      rw [hn] at h
      simp only [] at h
      cases hcm : consumeMulti (arg :: tl) sv.spec.name st.doneWithFlags with
      | error e => rw [hcm] at h; exact absurd h (by simp)
      | ok p =>
        obtain ⟨vs, rest2⟩ := p
        rw [hcm] at h
        simp only [] at h
        injection h with h2
        rw [← h2]
        refine ⟨?_, rfl, rfl, rfl⟩
        show rest2.length ≤ tl.length
        have := consumeMultiOk hcm
        simp only [List.length_cons] at this
        omega
    | zero =>
      rw [hn] at h
      exact absurd h (by simp)

/-- A failing `bindPositional` never raises a help or version signal. -/
theorem bindPositionalError {cmd : Command} {arg : String} {tl : List String}
    {st : ScanState} {e : ParseError}
    (h : bindPositional cmd arg tl st = Except.error e) :
    e ≠ ParseError.helpError ∧ e ≠ ParseError.versionError := by
  unfold bindPositional at h
  cases hget : st.positionalsToParse[st.positionalsIndex]? with
  | none =>
    rw [hget] at h
    injection h with h1
    rw [← h1]
    exact ⟨by simp, by simp⟩
  | some sv =>
    rw [hget] at h
    simp only [] at h
    cases hn : sv.spec.n with
    | one => rw [hn] at h; exact absurd h (by simp)
    | many =>
      rw [hn] at h
      simp only [] at h
      cases hcm : consumeMulti (arg :: tl) sv.spec.name st.doneWithFlags with
      | error e2 =>
        rw [hcm] at h
        simp only [] at h
        injection h with h1
        rw [← h1]
        exact consumeMultiError hcm
      | ok p =>
        obtain ⟨vs, rest2⟩ := p
        rw [hcm] at h
        exact absurd h (by simp)
    | zero =>
      rw [hn] at h
      simp only [] at h
      injection h with h1
      rw [← h1]
      exact ⟨by simp, by simp⟩

/-- A successful scan step leaves at most the tail unconsumed. -/
theorem scanStepOk {cmd : Command} {arg : String} {tl : List String}
    {st st2 : ScanState} (h : scanStep cmd arg tl st = Except.ok st2) :
    st2.rest.length ≤ tl.length := by
  unfold scanStep at h
  by_cases h1 : (arg == "--") = true
  · rw [if_pos h1] at h
    injection h with h2
    rw [← h2]
  · rw [if_neg h1] at h
    by_cases h2 : (!st.doneWithFlags && isHelpFlag arg) = true
    · rw [if_pos h2] at h; exact absurd h (by simp)
    · rw [if_neg h2] at h
      by_cases h3 : (!st.doneWithFlags && isVersionFlag arg) = true
      · rw [if_pos h3] at h; exact absurd h (by simp)
      · rw [if_neg h3] at h
        by_cases h4 : (!st.doneWithFlags && isFlag arg) = true
        · rw [if_pos h4] at h
          exact (processFlagOk h).1
        · rw [if_neg h4] at h
          exact (bindPositionalOk h).1

/-- The scan loop does not depend on the fuel, once the fuel exceeds the
number of remaining tokens (each iteration consumes at least one). -/
theorem scanLoopCongr (cmd : Command) :
    ∀ (f1 f2 : Nat) (st : ScanState), st.rest.length < f1 →
    st.rest.length < f2 → scanLoop cmd f1 st = scanLoop cmd f2 st := by
  intro f1
  induction f1 with
  | zero =>
    intro f2 st h1 _
    exact absurd h1 (Nat.not_lt_zero _)
  | succ f1 ih =>
    intro f2 st h1 h2
    match f2 with
    | 0 => exact absurd h2 (Nat.not_lt_zero _)
    | Nat.succ f2 =>
      simp only [scanLoop]
      cases hrest : st.rest with
      | nil => rfl
      | cons arg tl =>
        simp only []
        cases hstep : scanStep cmd arg tl st with
        | error e => rfl
        | ok st2 =>
          have hlen := scanStepOk hstep
          rw [hrest] at h1 h2
          simp only [List.length_cons] at h1 h2
          exact ih f2 st2 (by omega) (by omega)

/-! ## Lemmas: which branch a scan step takes -/

/-- Before the latch, a `name=value` token with a flag-shaped,
`=`-free name is handled by the flag branch, split at the first `=`. -/
theorem scanStepFlagEqForm (cmd : Command) (f v : String) (tl : List String)
    (st : ScanState) (hf : isFlag f = true) (hne : ('=') ∉ f.data)
    (hdone : st.doneWithFlags = false) :
    scanStep cmd (f ++ ("=") ++ v) tl st =
      processFlag cmd f (Option.some v) tl st := by
  have hmem := memEqToken f v
  unfold scanStep
  rw [if_neg (by rw [beqDashDashFalseOfMemEq hmem]; exact Bool.false_ne_true)]
  rw [if_neg (by rw [isHelpFlagFalseOfMemEq hmem, Bool.and_false]; exact Bool.false_ne_true)]
  rw [if_neg (by rw [isVersionFlagFalseOfMemEq hmem, Bool.and_false]; exact Bool.false_ne_true)]
  rw [if_pos (by rw [hdone, isFlagEqForm f v hf]; rfl)]
  simp only [splitFlagEqForm f v hne]

/-- Before the latch, a flag-shaped token without `=` (and not a help,
version, or `--` token) is handled by the flag branch with no joined
value. -/
theorem scanStepFlagSpaceForm (cmd : Command) (f : String) (tl : List String)
    (st : ScanState) (hf : isFlag f = true) (hne : ('=') ∉ f.data)
    (hh : isHelpFlag f = false) (hv : isVersionFlag f = false)
    (hdd : f ≠ "--") (hdone : st.doneWithFlags = false) :
    scanStep cmd f tl st = processFlag cmd f Option.none tl st := by
  have hdd2 : (f == "--") = false := by
    cases e : f == "--"
    · rfl
    · exact absurd (beq_iff_eq.mp e) hdd
  unfold scanStep
  rw [if_neg (by rw [hdd2]; exact Bool.false_ne_true)]
  rw [if_neg (by rw [hh, Bool.and_false]; exact Bool.false_ne_true)]
  rw [if_neg (by rw [hv, Bool.and_false]; exact Bool.false_ne_true)]
  rw [if_pos (by rw [hdone, hf]; rfl)]
  simp only [splitFlagEqNone f hne]

/-- After the latch, every token other than a literal `--` is handled by
the positional branch. -/
theorem scanStepLatched (cmd : Command) (arg : String) (tl : List String)
    (st : ScanState) (hdone : st.doneWithFlags = true) (hdd : arg ≠ "--") :
    scanStep cmd arg tl st = bindPositional cmd arg tl st := by
  have hdd2 : (arg == "--") = false := by
    cases e : arg == "--"
    · rfl
    · exact absurd (beq_iff_eq.mp e) hdd
  unfold scanStep
  rw [if_neg (by rw [hdd2]; exact Bool.false_ne_true)]
  rw [if_neg (by rw [hdone]; simp)]
  rw [if_neg (by rw [hdone]; simp)]
  rw [if_neg (by rw [hdone]; simp)]

/-- A hyphen followed by a decimal number is always handled by the
positional branch, latched or not. -/
theorem scanStepDashDecimal (cmd : Command) (s : String) (tl : List String)
    (st : ScanState) (hdec : isDecimalNumber s = true) :
    scanStep cmd (("-") ++ s) tl st = bindPositional cmd (("-") ++ s) tl st := by
  unfold scanStep
  rw [if_neg (by rw [dashDecimalNeDashDash hdec]; exact Bool.false_ne_true)]
  rw [if_neg (by rw [isHelpFlagDashDecimal hdec, Bool.and_false]; exact Bool.false_ne_true)]
  rw [if_neg (by rw [isVersionFlagDashDecimal hdec, Bool.and_false]; exact Bool.false_ne_true)]
  rw [if_neg (by rw [isFlagDashDecimal hdec, Bool.and_false]; exact Bool.false_ne_true)]

/-! ## Lemmas: the `--` latch is permanent -/

/-- Scanning from a latched state never signals help or version and
never touches a flag or mutex state: every token is skipped (`--`) or
bound as a positional. -/
theorem scanLoopLatched (cmd : Command) :
    ∀ (fuel : Nat) (st : ScanState), st.doneWithFlags = true →
    latchInvariant st (scanLoop cmd fuel st) := by
  intro fuel
  induction fuel with
  | zero =>
    intro st _
    exact ⟨by simp, by simp⟩
  | succ fuel ih =>
    intro st hdone
    simp only [scanLoop]
    cases hrest : st.rest with
    | nil => exact ⟨rfl, rfl, hdone⟩
    | cons arg tl =>
      simp only []
      by_cases hdd : arg = "--"
      · have hstep : scanStep cmd arg tl st =
            Except.ok { st with doneWithFlags := true, rest := tl } := by
          unfold scanStep
          rw [if_pos (by rw [hdd]; rfl)]
        rw [hstep]
        simp only []
        have := ih { st with doneWithFlags := true, rest := tl } rfl
        cases hres : scanLoop cmd fuel { st with doneWithFlags := true, rest := tl } with
        | ok st2 =>
          rw [hres] at this
          exact this
        | error e =>
          rw [hres] at this
          exact this
      · rw [scanStepLatched cmd arg tl st hdone hdd]
        cases hbp : bindPositional cmd arg tl st with
        | error e =>
          simp only []
          exact bindPositionalError hbp
        | ok st2 =>
          simp only []
          obtain ⟨_, hflags, hmut, hd⟩ := bindPositionalOk hbp
          have hdone2 : st2.doneWithFlags = true := by rw [hd, hdone]
          have := ih st2 hdone2
          cases hres : scanLoop cmd fuel st2 with
          | ok st3 =>
            rw [hres] at this
            exact ⟨this.1.trans hflags, this.2.1.trans hmut, this.2.2⟩
          | error e =>
            rw [hres] at this
            exact this

/-! ## Lemmas: spec-building invariants (`Command._check`) -/

/-- What a successful `Command._check` guarantees. -/
theorem checkOk {cmd : Command} {name : String} {isFlagArg required : Bool}
    {cmd2 : Command}
    (h : Command.check cmd name isFlagArg required = Except.ok cmd2) :
    cmd2 = { cmd with namesTaken := cmd.namesTaken ++ [name] } ∧
    name ∉ cmd.namesTaken ∧
    (isFlagArg = false →
      cmd.positionals.any (fun spec => spec.n == ArgCount.many) = false) ∧
    (isFlagArg = false → required = true →
      cmd.positionals.any (fun spec => !spec.required) = false) := by
  unfold Command.check at h
  by_cases h1 : cmd.passthrough.isSome = true
  · rw [if_pos h1] at h; exact absurd h (by simp)
  · rw [if_neg h1] at h
    by_cases h2 : cmd.namesTaken.contains name = true
    · rw [if_pos h2] at h; exact absurd h (by simp)
    · rw [if_neg h2] at h
      by_cases h3 : (isHelpFlag name || isVersionFlag name) = true
      · rw [if_pos h3] at h; exact absurd h (by simp)
      · rw [if_neg h3] at h
        by_cases h4 : (isFlagArg && !isFlag name) = true
        · rw [if_pos h4] at h; exact absurd h (by simp)
        · rw [if_neg h4] at h
          by_cases h5 : (!isFlagArg && startsWithDash name) = true
          · rw [if_pos h5] at h; exact absurd h (by simp)
          · rw [if_neg h5] at h
            by_cases h6 : (!isFlagArg && required &&
                cmd.positionals.any (fun spec => !spec.required)) = true
            · rw [if_pos h6] at h; exact absurd h (by simp)
            · rw [if_neg h6] at h
              by_cases h7 : (!isFlagArg &&
                  cmd.positionals.any (fun spec => spec.n == ArgCount.many)) = true
              · rw [if_pos h7] at h; exact absurd h (by simp)
              · rw [if_neg h7] at h
                injection h with h8
                refine ⟨h8.symm, ?_, ?_, ?_⟩
                · intro hmem
                  exact h2 (List.elem_iff.mpr hmem)
                · intro hflag
                  rw [hflag] at h7
                  cases hany : cmd.positionals.any (fun spec => spec.n == ArgCount.many)
                  · rfl
                  · exact absurd (by rw [hany]; rfl) h7
                · intro hflag hreq
                  rw [hflag, hreq] at h6
                  cases hany : cmd.positionals.any (fun spec => !spec.required)
                  · rfl
                  · exact absurd (by rw [hany]; rfl) h6

/-- Inserting a spec with a fresh name appends to the flag table. -/
theorem insertFlagSpecFresh {l : List ArgSpec} {spec : ArgSpec}
    (h : spec.name ∉ l.map ArgSpec.name) : insertFlagSpec l spec = l ++ [spec] := by
  unfold insertFlagSpec
  rw [if_neg ?_]
  intro hany
  obtain ⟨s, hs, hname⟩ := List.any_eq_true.mp hany
  exact h (beq_iff_eq.mp hname ▸ List.mem_map_of_mem ArgSpec.name hs)

/-- Turning `List.any p = false` into a pointwise statement. -/
theorem anyFalse {α : Type} {l : List α} {p : α → Bool} (h : l.any p = false) :
    ∀ x ∈ l, p x = false := by
  intro x hx
  cases hp : p x
  · rfl
  · exact absurd (List.any_eq_true.mpr ⟨x, hx, hp⟩) (by rw [h]; exact Bool.false_ne_true)

/-- Each spec-building call preserves the structural invariant. -/
theorem applyOpInv {cmd cmd2 : Command} {op : AddOp}
    (h : applyOp cmd op = Except.ok cmd2) (hinv : commandInv cmd) :
    commandInv cmd2 := by
  obtain ⟨hnd, hposTaken, hflagTaken, hmany, hreq⟩ := hinv
  have flagCase : ∀ (name : String) (spec : ArgSpec) (cmd1 : Command)
      (req : Bool),
      Command.check cmd name true req = Except.ok cmd1 →
      spec.name = name →
      cmd2 = { cmd1 with flags := insertFlagSpec cmd1.flags spec } →
      commandInv cmd2 := by
    intro name spec cmd1 req hchk hspecname hcmd2
    obtain ⟨hc1, hfresh, _, _⟩ := checkOk hchk
    have hnotflag : spec.name ∉ cmd.flags.map ArgSpec.name := by
      intro hmem
      rw [hspecname] at hmem
      exact hfresh (hflagTaken name hmem)
    have hnotpos : spec.name ∉ cmd.positionals.map ArgSpec.name := by
      intro hmem
      rw [hspecname] at hmem
      exact hfresh (hposTaken name hmem)
    rw [hc1] at hcmd2
    rw [hcmd2]
    have hins : insertFlagSpec cmd.flags spec = cmd.flags ++ [spec] :=
      insertFlagSpecFresh hnotflag
    refine ⟨?_, ?_, ?_, hmany, hreq⟩
    · simp only [hins, List.map_append]
      rw [← List.append_assoc]
      rw [List.nodup_append]
      refine ⟨hnd, List.nodup_singleton _, ?_⟩
      intro a ha hb
      rw [List.mem_singleton.mp hb] at ha
      rcases List.mem_append.mp ha with h1 | h1
      · exact hnotpos h1
      · exact hnotflag h1
    · intro n hn
      exact List.mem_append.mpr (Or.inl (hposTaken n hn))
    · intro n hn
      simp only [hins, List.map_append] at hn
      rcases List.mem_append.mp hn with h1 | h1
      · exact List.mem_append.mpr (Or.inl (hflagTaken n h1))
      · rw [List.mem_singleton.mp h1]
        exact List.mem_append.mpr (Or.inr (List.mem_singleton.mpr hspecname))
  cases op with
  | switchOp name dest =>
    simp only [applyOp, Command.switch] at h
    cases hchk : Command.check cmd name true false with
    | error e => rw [hchk] at h; exact absurd h (by simp [Bind.bind, Except.bind])
    | ok cmd1 =>
      rw [hchk] at h
      simp only [Bind.bind, Except.bind] at h
      injection h with h2
      exact flagCase name _ cmd1 false hchk rfl h2.symm
  | flagOp name n req default converter dest =>
    simp only [applyOp, Command.flagArg] at h
    cases hchk : Command.check cmd name true req with
    | error e => rw [hchk] at h; exact absurd h (by simp [Bind.bind, Except.bind])
    | ok cmd1 =>
      rw [hchk] at h
      simp only [Bind.bind, Except.bind] at h
      injection h with h2
      exact flagCase name _ cmd1 req hchk rfl h2.symm
  | argOp name req n converter =>
    simp only [applyOp, Command.posArg] at h
    cases hchk : Command.check cmd name false req with
    | error e => rw [hchk] at h; exact absurd h (by simp [Bind.bind, Except.bind])
    | ok cmd1 =>
      rw [hchk] at h
      simp only [Bind.bind, Except.bind] at h
      injection h with h2
      obtain ⟨hc1, hfresh, hmanyok, hreqok⟩ := checkOk hchk
      rw [hc1] at h2
      rw [← h2]
      have hnotpos : name ∉ cmd.positionals.map ArgSpec.name := by
        intro hmem
        exact hfresh (hposTaken name hmem)
      have hnotflag : name ∉ cmd.flags.map ArgSpec.name := by
        intro hmem
        exact hfresh (hflagTaken name hmem)
      have hallnotmany := anyFalse (hmanyok rfl)
      refine ⟨?_, ?_, ?_, ?_, ?_⟩
      · simp only [List.map_append, List.map_cons, List.map_nil]
        have hperm : List.Perm
            ((cmd.positionals.map ArgSpec.name ++ [name]) ++
              cmd.flags.map ArgSpec.name)
            ((cmd.positionals.map ArgSpec.name ++ cmd.flags.map ArgSpec.name) ++
              [name]) := by
          rw [List.append_assoc, List.append_assoc]
          exact List.Perm.append_left _ (List.perm_append_comm)
        apply hperm.nodup_iff.mpr
        rw [List.nodup_append]
        refine ⟨hnd, List.nodup_singleton _, ?_⟩
        intro a ha hb
        rw [List.mem_singleton.mp hb] at ha
        rcases List.mem_append.mp ha with h1 | h1
        · exact hnotpos h1
        · exact hnotflag h1
      · intro m hm
        simp only [List.map_append, List.map_cons, List.map_nil] at hm
        rcases List.mem_append.mp hm with h1 | h1
        · exact List.mem_append.mpr (Or.inl (hposTaken m h1))
        · rw [List.mem_singleton.mp h1]
          exact List.mem_append.mpr (Or.inr (List.mem_singleton.mpr rfl))
      · intro m hm
        exact List.mem_append.mpr (Or.inl (hflagTaken m hm))
      · rw [List.pairwise_append]
        refine ⟨hmany, List.pairwise_singleton _ _, ?_⟩
        intro a ha b _
        intro heq
        exact absurd (beq_iff_eq.mpr heq) (by rw [hallnotmany a ha]; exact Bool.false_ne_true)
      · rw [List.pairwise_append]
        refine ⟨hreq, List.pairwise_singleton _ _, ?_⟩
        intro a ha b hb
        rw [List.mem_singleton.mp hb]
        intro haopt
        cases hr : req
        · rfl
        · exfalso
          have := anyFalse (hreqok rfl hr) a ha
          rw [haopt] at this
          exact absurd this (by decide)
  | passthroughOp name =>
    simp only [applyOp, Command.addPassthrough] at h
    by_cases h1 : (cmd.flags.length > 0 || cmd.positionals.length > 0) = true
    · rw [if_pos h1] at h; exact absurd h (by simp)
    · rw [if_neg h1] at h
      injection h with h2
      rw [← h2]
      exact ⟨hnd, hposTaken, hflagTaken, hmany, hreq⟩

/-- The structural invariant holds along any `foldlM` of spec-building
calls. -/
theorem buildCommandInvAux :
    ∀ (ops : List AddOp) (cmd0 cmd : Command), commandInv cmd0 →
    List.foldlM applyOp cmd0 ops = Except.ok cmd → commandInv cmd := by
  intro ops
  induction ops with
  | nil =>
    intro cmd0 cmd h0 h
    simp only [List.foldlM_nil] at h
    injection h with h2
    rw [← h2]
    exact h0
  | cons op ops ih =>
    intro cmd0 cmd h0 h
    simp only [List.foldlM_cons] at h
    cases hop : applyOp cmd0 op with
    | error e =>
      rw [hop] at h
      exact absurd h (by simp [Bind.bind, Except.bind])
    | ok cmd1 =>
      rw [hop] at h
      simp only [Bind.bind, Except.bind] at h
      exact ih cmd1 cmd (applyOpInv hop h0) h

/-- Every successfully built command satisfies the structural
invariant. -/
theorem buildCommandInv {ops : List AddOp} {cmd : Command}
    (h : buildCommand ops = Except.ok cmd) : commandInv cmd := by
  apply buildCommandInvAux ops Command.empty cmd ?_ h
  exact ⟨List.nodup_nil, by intro n hn; exact absurd hn (by simp [Command.empty]),
    by intro n hn; exact absurd hn (by simp [Command.empty]),
    List.Pairwise.nil, List.Pairwise.nil⟩

/-! ## Lemmas: groups -/

/-- What a successful `Group.add` guarantees: the name was fresh and the
binding is appended, preserving all existing bindings. -/
theorem groupAddOk {subcmds : List (String × CmdOrGroup)} {name : String}
    {c : CmdOrGroup} {g2 : List (String × CmdOrGroup)}
    (h : groupAdd subcmds name c = Except.ok g2) :
    name ∉ subcmds.map Prod.fst ∧ g2 = subcmds ++ [(name, c)] := by
  unfold groupAdd at h
  by_cases h1 : subcmds.any (fun p => p.1 == name) = true
  · rw [if_pos h1] at h
    exact absurd h (by simp)
  · rw [if_neg h1] at h
    injection h with h2
    refine ⟨?_, h2.symm⟩
    intro hmem
    obtain ⟨p, hp, hname⟩ := List.mem_map.mp hmem
    exact h1 (List.any_eq_true.mpr ⟨p, hp, beq_iff_eq.mpr hname⟩)

/-- Any `foldlM` of `Group.add` calls keeps subcommand names unique. -/
theorem buildGroupNodupAux :
    ∀ (adds : List (String × CmdOrGroup)) (g0 g : List (String × CmdOrGroup)),
    (g0.map Prod.fst).Nodup →
    List.foldlM (fun g p => groupAdd g p.1 p.2) g0 adds = Except.ok g →
    (g.map Prod.fst).Nodup := by
  intro adds
  induction adds with
  | nil =>
    intro g0 g h0 h
    simp only [List.foldlM_nil] at h
    injection h with h2
    rw [← h2]
    exact h0
  | cons p adds ih =>
    intro g0 g h0 h
    simp only [List.foldlM_cons] at h
    cases hadd : groupAdd g0 p.1 p.2 with
    | error e =>
      rw [hadd] at h
      exact absurd h (by simp [Bind.bind, Except.bind])
    | ok g1 =>
      rw [hadd] at h
      simp only [Bind.bind, Except.bind] at h
      obtain ⟨hfresh, hg1⟩ := groupAddOk hadd
      apply ih g1 g ?_ h
      rw [hg1]
      simp only [List.map_append, List.map_cons, List.map_nil]
      rw [List.nodup_append]
      refine ⟨h0, List.nodup_singleton _, ?_⟩
      intro a ha hb
      rw [List.mem_singleton.mp hb] at ha
      exact hfresh ha

/-- Unfold one iteration of the scan loop on a non-empty remainder. -/
theorem scanLoopSucc (cmd : Command) (fuel : Nat) (st : ScanState) (arg : String)
    (tl : List String) (hrest : st.rest = arg :: tl) :
    scanLoop cmd (fuel + 1) st =
      match scanStep cmd arg tl st with
      | Except.error e => Except.error e
      | Except.ok st2 => scanLoop cmd fuel st2 := by
  simp only [scanLoop, hrest]

/-- Scanning a second occurrence of an already-set flag supplied as
`name=value` fails with the repeated-flag error. -/
theorem secondRepeatedStep (cmd : Command) (f v2 : String) (rest : List String)
    (st1 : ScanState) (sv2 : SpecAndValue) (fuel : Nat)
    (hf : isFlag f = true) (hne : ('=') ∉ f.data)
    (hdone : st1.doneWithFlags = false)
    (hrest : st1.rest = (f ++ ("=") ++ v2) :: rest)
    (hget : assocGet st1.flagsToParse f = Option.some sv2)
    (hset : sv2.isSet = true) :
    scanLoop cmd (fuel + 1) st1 =
      Except.error (ParseError.cmdError (("flag was repeated: ") ++ f)) := by
  rw [scanLoopSucc cmd fuel st1 _ _ hrest]
  rw [scanStepFlagEqForm cmd f v2 rest st1 hf hne hdone]
  unfold processFlag
  rw [hget]
  simp only []
  rw [if_pos hset]

/-! ## The claims -/

/-- Claim C3: the command built from
`f(word: str, *, n: bool, file: Optional[str])`, parsed with
`["prog", "-n=false", "-file=example.txt", "hello"]`, succeeds and binds
exactly `file="example.txt"`, `n=false`, and `word="hello"`. -/
theorem c3_example_parse :
    parseCommand exC3 ["prog", "-n=false", "-file=example.txt", "hello"] =
      Except.ok { args := [(("word"), Value.str ("hello"))],
                  kwargs := [(("n"), Value.bool false),
                             (("file"), Value.str ("example.txt"))],
                  lessLogging := true } := by
  decide

/-- Claim C9: a passthrough command returns every token after the
program name verbatim as the passthrough value, with no flag lookup, no
`--` handling and no help or version recognition; in particular
`["prog", "-h"]` binds the passthrough to `["-h"]` instead of signalling
help. -/
theorem c9_passthrough (cmd : Command) (argv : List String) (d : String)
    (h : cmd.passthrough = Option.some d) :
    parseCommand cmd argv =
      Except.ok { args := [(d, Value.vlist ((argv.drop 1).map Value.str))],
                  kwargs := [], lessLogging := cmd.lessLogging } ∧
    parseCommand cmd [("prog"), ("-h")] =
      Except.ok { args := [(d, Value.vlist [Value.str ("-h")])],
                  kwargs := [], lessLogging := cmd.lessLogging } := by
  unfold parseCommand
  rw [h]
  exact ⟨rfl, rfl⟩

/-- Witness for C9 at a concrete passthrough command. -/
theorem c9_passthrough_witness :
    exPass.passthrough = Option.some ("args") ∧
    (parseCommand exPass ["prog", "-x", "-h"] =
      Except.ok { args := [(("args"), Value.vlist [Value.str ("-x"), Value.str ("-h")])],
                  kwargs := [], lessLogging := exPass.lessLogging } ∧
     parseCommand exPass [("prog"), ("-h")] =
      Except.ok { args := [(("args"), Value.vlist [Value.str ("-h")])],
                  kwargs := [], lessLogging := exPass.lessLogging }) :=
  ⟨rfl, c9_passthrough exPass ["prog", "-x", "-h"] ("args") rfl⟩

/-- Claim C10: `Group.add` (and `Group.add2`, which delegates to it)
rejects a subcommand name that is already present, so names stay unique
along any sequence of additions and an existing subcommand is never
silently overwritten (new bindings are appended, old ones untouched). -/
theorem c10_group_add_unique (g g2 g4 : List (String × CmdOrGroup))
    (name : String) (c : CmdOrGroup) (cmd4 : Command)
    (adds : List (String × CmdOrGroup)) (g3 : List (String × CmdOrGroup))
    (hadd : groupAdd g name c = Except.ok g2)
    (hadd2 : groupAdd2 g name cmd4 = Except.ok g4)
    (hbuild : buildGroup adds = Except.ok g3) :
    name ∉ g.map Prod.fst ∧ g2 = g ++ [(name, c)] ∧
    g4 = g ++ [(name, CmdOrGroup.command cmd4)] ∧
    (g3.map Prod.fst).Nodup := by
  obtain ⟨h1, h2⟩ := groupAddOk hadd
  obtain ⟨_, h4⟩ := groupAddOk hadd2
  exact ⟨h1, h2, h4, buildGroupNodupAux adds [] g3 List.nodup_nil hbuild⟩

/-- Witness for C10 at a concrete group. -/
theorem c10_group_add_unique_witness :
    groupAdd exGroup ("beta") (CmdOrGroup.command exPass) =
      Except.ok (exGroup ++ [(("beta"), CmdOrGroup.command exPass)]) ∧
    groupAdd2 exGroup ("beta") exPass =
      Except.ok (exGroup ++ [(("beta"), CmdOrGroup.command exPass)]) ∧
    buildGroup exGroup = Except.ok exGroup ∧
    (("beta") ∉ exGroup.map Prod.fst ∧
     exGroup ++ [(("beta"), CmdOrGroup.command exPass)] =
       exGroup ++ [(("beta"), CmdOrGroup.command exPass)] ∧
     exGroup ++ [(("beta"), CmdOrGroup.command exPass)] =
       exGroup ++ [(("beta"), CmdOrGroup.command exPass)] ∧
     (exGroup.map Prod.fst).Nodup) :=
  ⟨rfl, rfl, rfl,
   c10_group_add_unique exGroup _ _ ("beta") (CmdOrGroup.command exPass) exPass
     exGroup exGroup rfl rfl rfl⟩

/-- Claim C5: a token consisting of a hyphen followed by a valid decimal
number literal is never classified as a flag (nor as a help, version, or
latch token): `consumeOne` accepts it as a flag argument, and the scan
loop handles it by the positional branch, so it is always bound as a
value and never produces an unknown-flag error. -/
theorem c5_negative_number_not_flag (s : String) (name : String)
    (tl : List String) (cmd : Command) (st : ScanState)
    (hdec : isDecimalNumber s = true) :
    isFlag (("-") ++ s) = false ∧
    isHelpFlag (("-") ++ s) = false ∧
    isVersionFlag (("-") ++ s) = false ∧
    ((("-") ++ s) == "--") = false ∧
    consumeOne ((("-") ++ s) :: tl) name = Except.ok (("-") ++ s, tl) ∧
    scanStep cmd (("-") ++ s) tl st = bindPositional cmd (("-") ++ s) tl st := by
  have hf := isFlagDashDecimal hdec
  refine ⟨hf, isHelpFlagDashDecimal hdec, isVersionFlagDashDecimal hdec,
    dashDecimalNeDashDash hdec, ?_, scanStepDashDecimal cmd s tl st hdec⟩
  simp only [consumeOne]
  rw [if_neg (by rw [hf]; exact Bool.false_ne_true)]

/-- Witness for C5 at the token `-1.5`. -/
theorem c5_negative_number_not_flag_witness :
    isDecimalNumber ("1.5") = true ∧
    (isFlag (("-") ++ ("1.5")) = false ∧
     isHelpFlag (("-") ++ ("1.5")) = false ∧
     isVersionFlag (("-") ++ ("1.5")) = false ∧
     ((("-") ++ ("1.5")) == "--") = false ∧
     consumeOne ((("-") ++ ("1.5")) :: [("t")]) ("-x") =
       Except.ok (("-") ++ ("1.5"), [("t")]) ∧
     scanStep exWord (("-") ++ ("1.5")) [("t")] exLatched =
       bindPositional exWord (("-") ++ ("1.5")) [("t")] exLatched) :=
  ⟨by decide,
   c5_negative_number_not_flag ("1.5") ("-x") [("t")] exWord exLatched (by decide)⟩

/-- Claim C2 counterexample: after the latch, a second literal `--`
token is consumed by the latch branch and skipped, not bound as a
positional value.  Parsing `["prog", "--", "--", "x"]` against a command
with one positional binds `word = "x"`; under the claim every token
after the latch would be bound, so `word` would be `"--"` and `"x"`
would be an extra-argument error. -/
theorem c2_counterexample :
    parseCommand exWord ["prog", "--", "--", "x"] =
      Except.ok { args := [(("word"), Value.str ("x"))], kwargs := [],
                  lessLogging := true } ∧
    Value.str ("x") ≠ Value.str ("--") := by
  exact ⟨by decide, by decide⟩

/-- Claim C2 (amended): once `--` has been consumed, the latch is
permanent; no later token is ever treated as a flag or as a help or
version marker (the flag table and mutex state are untouched, and help
and version are never signalled), and every later token other than a
literal `--` (which is skipped by the latch branch) is handled by the
positional-binding branch. -/
theorem c2_amended_latch (cmd : Command) (fuel : Nat) (st : ScanState)
    (res : Except ParseError ScanState) (arg : String) (tl : List String)
    (hdone : st.doneWithFlags = true) (hres : scanLoop cmd fuel st = res)
    (hdd : arg ≠ "--") :
    scanStep cmd arg tl st = bindPositional cmd arg tl st ∧
    latchInvariant st res := by
  refine ⟨scanStepLatched cmd arg tl st hdone hdd, ?_⟩
  rw [← hres]
  exact scanLoopLatched cmd fuel st hdone

/-- Witness for the amended C2 at a concrete latched state. -/
theorem c2_amended_latch_witness :
    exLatched.doneWithFlags = true ∧ (("x") : String) ≠ "--" ∧
    (scanStep exWord ("x") [] exLatched = bindPositional exWord ("x") [] exLatched ∧
     latchInvariant exLatched (scanLoop exWord 2 exLatched)) :=
  ⟨rfl, by decide,
   c2_amended_latch exWord 2 exLatched (scanLoop exWord 2 exLatched) ("x") []
     rfl rfl (by decide)⟩

/-- Claim C7 counterexample: the converter is not applied to a final
value of `None`.  The optional flag `-x` of `exC7x` has default `None`
and converter `exConv`; parsing `["prog"]` binds `x = None`, while the
claim predicts the converted value `exConv None = "CONV"`. -/
theorem c7_counterexample :
    parseCommand exC7x ["prog"] =
      Except.ok { args := [], kwargs := [(("x"), Value.none)],
                  lessLogging := true } ∧
    applyConverter exConv Value.none = Value.str ("CONV") ∧
    Value.none ≠ Value.str ("CONV") := by
  exact ⟨by decide, rfl, by decide⟩

/-- Claim C7 (amended): the per-spec converter (or the identity when
none is given) is applied to every final bound value except `None`:
flag defaults are converted, `=`-supplied values are converted,
list values are converted element-wise, a spec without a converter
passes values through unchanged, and a final `None` (an optional flag
never supplied, or an optional positional left unfilled) is bound as
`None` without conversion. -/
theorem c7_amended_converters (c : Value → Value) :
    parseCommand (c7aCmd c) ["prog"] =
      Except.ok { args := [], kwargs := [(("x"), c (Value.str ("D")))],
                  lessLogging := true } ∧
    parseCommand (c7aCmd c) ["prog", "-x=hello"] =
      Except.ok { args := [], kwargs := [(("x"), c (Value.str ("hello")))],
                  lessLogging := true } ∧
    parseCommand (c7bCmd c) ["prog", "a", "b"] =
      Except.ok { args := [(("words"), Value.vlist [c (Value.str ("a")), c (Value.str ("b"))])],
                  kwargs := [], lessLogging := true } ∧
    parseCommand c7cCmd ["prog", "w"] =
      Except.ok { args := [(("w"), Value.str ("w"))], kwargs := [],
                  lessLogging := true } ∧
    parseCommand (c7dCmd c) ["prog"] =
      Except.ok { args := [], kwargs := [(("y"), Value.none)],
                  lessLogging := true } := by
  exact ⟨rfl, rfl, rfl, rfl, rfl⟩

/-- Adding a positional after a many-arity positional always fails. -/
theorem posArgFailsOfMany {st : Command} {name : String} {req : Bool}
    {n : ArgCount} {cv : Option (Value → Value)}
    (hmany : st.positionals.any (fun spec => spec.n == ArgCount.many) = true) :
    (st.posArg name req n cv).isOk = false := by
  unfold Command.posArg
  cases hchk : st.check name false req with
  | error e => rfl
  | ok cmd1 =>
    obtain ⟨_, _, hmanyok, _⟩ := checkOk hchk
    rw [hmanyok rfl] at hmany
    exact absurd hmany (by simp)

/-- Adding a required positional after an optional one always fails. -/
theorem posArgFailsOfOptional {st : Command} {name : String}
    {n : ArgCount} {cv : Option (Value → Value)}
    (hopt : st.positionals.any (fun spec => !spec.required) = true) :
    (st.posArg name true n cv).isOk = false := by
  unfold Command.posArg
  cases hchk : st.check name false true with
  | error e => rfl
  | ok cmd1 =>
    obtain ⟨_, _, _, hreqok⟩ := checkOk hchk
    rw [hreqok rfl rfl] at hopt
    exact absurd hopt (by simp)

/-- Claim C8: adding any positional after a many-arity positional, or a
required positional after an optional one, is a specification error; in
every successfully built command argument names are unique, a
list-valued positional is the last positional, and no required
positional follows an optional one. -/
theorem c8_spec_invariants (ops : List AddOp) (cmd : Command)
    (st2 st3 : Command) (nm2 nm3 : String) (req2 : Bool) (n2 n3 : ArgCount)
    (cv2 cv3 : Option (Value → Value))
    (hbuild : buildCommand ops = Except.ok cmd)
    (hmany : st2.positionals.any (fun spec => spec.n == ArgCount.many) = true)
    (hopt : st3.positionals.any (fun spec => !spec.required) = true) :
    ((cmd.positionals.map ArgSpec.name) ++ (cmd.flags.map ArgSpec.name)).Nodup ∧
    List.Pairwise (fun a _ => a.n ≠ ArgCount.many) cmd.positionals ∧
    List.Pairwise (fun a b => a.required = false → b.required = false)
      cmd.positionals ∧
    (applyOp st2 (AddOp.argOp nm2 req2 n2 cv2)).isOk = false ∧
    (applyOp st3 (AddOp.argOp nm3 true n3 cv3)).isOk = false := by
  obtain ⟨hnd, _, _, hmany2, hreq2⟩ := buildCommandInv hbuild
  exact ⟨hnd, hmany2, hreq2, posArgFailsOfMany hmany, posArgFailsOfOptional hopt⟩

/-- Witness for C8 at concrete builder calls. -/
theorem c8_spec_invariants_witness :
    buildCommand exOps = Except.ok exBuiltCmd ∧
    (exManyPosCmd.positionals.any (fun spec => spec.n == ArgCount.many)) = true ∧
    (exOptPosCmd.positionals.any (fun spec => !spec.required)) = true ∧
    (((exBuiltCmd.positionals.map ArgSpec.name) ++
        (exBuiltCmd.flags.map ArgSpec.name)).Nodup ∧
     List.Pairwise (fun a _ => a.n ≠ ArgCount.many) exBuiltCmd.positionals ∧
     List.Pairwise (fun a b => a.required = false → b.required = false)
       exBuiltCmd.positionals ∧
     (applyOp exManyPosCmd (AddOp.argOp ("z") false ArgCount.one Option.none)).isOk = false ∧
     (applyOp exOptPosCmd (AddOp.argOp ("z") true ArgCount.one Option.none)).isOk = false) :=
  ⟨rfl, rfl, rfl,
   c8_spec_invariants exOps exBuiltCmd exManyPosCmd exOptPosCmd ("z") ("z")
     false ArgCount.one ArgCount.one Option.none Option.none rfl rfl rfl⟩

/-- The setting of a flag entry keeps every dead name dead: the updated
entry is marked set, and every other entry is untouched. -/
theorem flagDeadAssocSetOther {v : SpecAndValue} (hv : v.isSet = true) :
    ∀ (l : List (String × SpecAndValue)) (k n : String),
    flagDead l n → flagDead (assocSet l k v) n := by
  intro l
  induction l with
  | nil =>
    intro k n hd
    exact hd
  | cons p tl ih =>
    intro k n hd sv hget
    obtain ⟨pk, pv⟩ := p
    simp only [assocSet] at hget
    by_cases h1 : (pk == k) = true
    · rw [if_pos h1] at hget
      simp only [assocGet] at hget
      by_cases h2 : (pk == n) = true
      · rw [if_pos h2] at hget
        injection hget with h3
        rw [← h3]
        exact hv
      · rw [if_neg h2] at hget
        apply hd sv
        simp only [assocGet]
        rw [if_neg h2]
        exact hget
    · rw [if_neg h1] at hget
      simp only [assocGet] at hget
      by_cases h2 : (pk == n) = true
      · rw [if_pos h2] at hget
        injection hget with h3
        rw [← h3]
        apply hd pv
        simp only [assocGet]
        rw [if_pos h2]
      · rw [if_neg h2] at hget
        apply ih k n ?_ sv hget
        intro sv2 hg2
        apply hd sv2
        simp only [assocGet]
        rw [if_neg h2]
        exact hg2

/-- After setting a flag entry to a set value, the set name itself is
dead. -/
theorem flagDeadAssocSetSelf {v : SpecAndValue} (hv : v.isSet = true) :
    ∀ (l : List (String × SpecAndValue)) (k : String),
    flagDead (assocSet l k v) k := by
  intro l
  induction l with
  | nil =>
    intro k sv hget
    exact absurd hget (by simp [assocSet, assocGet])
  | cons p tl ih =>
    intro k sv hget
    obtain ⟨pk, pv⟩ := p
    simp only [assocSet] at hget
    by_cases h1 : (pk == k) = true
    · rw [if_pos h1] at hget
      simp only [assocGet] at hget
      rw [if_pos h1] at hget
      injection hget with h3
      rw [← h3]
      exact hv
    · rw [if_neg h1] at hget
      simp only [assocGet] at hget
      rw [if_neg h1] at hget
      exact ih k sv hget

/-- `_consume_one` never consumes a flag token: if a flag token occurs
in the list, success means only tokens strictly before it were taken
(here, exactly one). -/
theorem consumeOneSuffix {name v : String} {t : String} {B C tl2 : List String}
    (hft : isFlag t = true)
    (h : consumeOne (B ++ (t :: C)) name = Except.ok (v, tl2)) :
    ∃ b B2, B = b :: B2 ∧ tl2 = B2 ++ (t :: C) := by
  cases B with
  | nil =>
    simp only [List.nil_append] at h
    unfold consumeOne at h
    simp only [] at h
    rw [if_pos hft] at h
    exact absurd h (by simp)
  | cons b B2 =>
    simp only [List.cons_append] at h
    unfold consumeOne at h
    simp only [] at h
    by_cases hb : isFlag b = true
    · rw [if_pos hb] at h
      exact absurd h (by simp)
    · rw [if_neg hb] at h
      injection h with h2
      injection h2 with h3 h4
      exact ⟨b, B2, rfl, h4.symm⟩

/-- With the latch off, the greedy loop of `_consume_multi` stops at
the first flag token: that token and everything after it survive as the
unconsumed remainder. -/
theorem consumeMultiGoSuffix {t : String} (hft : isFlag t = true) :
    ∀ (B C : List String), ∃ B2,
      (consumeMultiGo (B ++ (t :: C)) false).2 = B2 ++ (t :: C) ∧ B2.Sublist B := by
  intro B
  induction B with
  | nil =>
    intro C
    refine ⟨[], ?_, List.Sublist.refl []⟩
    simp only [List.nil_append]
    unfold consumeMultiGo
    simp only []
    rw [hft]
    rfl
  | cons b B2 ih =>
    intro C
    simp only [List.cons_append]
    unfold consumeMultiGo
    simp only []
    by_cases hb : isFlag b = true
    · rw [hb]
      exact ⟨b :: B2, rfl, List.Sublist.refl (b :: B2)⟩
    · have hb2 : isFlag b = false := by
        cases e : isFlag b
        · rfl
        · exact absurd e hb
      rw [hb2]
      obtain ⟨B3, hg, hsub⟩ := ih C
      cases hgo : consumeMultiGo (B2 ++ (t :: C)) false with
      | mk r rest2 =>
        rw [hgo] at hg
        exact ⟨B3, hg, List.Sublist.cons b hsub⟩

/-- On success the remainder left by `_consume_multi` is exactly the
remainder of its greedy loop. -/
theorem consumeMultiRest {name : String} {d : Bool} :
    ∀ {l vs rest2 : List String},
    consumeMulti l name d = Except.ok (vs, rest2) →
    rest2 = (consumeMultiGo l d).2 := by
  intro l vs rest2 h
  cases l with
  | nil => exact absurd h (by simp [consumeMulti])
  | cons a tl =>
    unfold consumeMulti at h
    simp only [] at h
    cases hgo : consumeMultiGo (a :: tl) d with
    | mk r r2 =>
      rw [hgo] at h
      simp only [] at h
      by_cases hre : r.isEmpty = true
      · rw [if_pos hre] at h
        exact absurd h (by simp)
      · rw [if_neg hre] at h
        injection h with h3
        injection h3 with h4 h5
        exact h5.symm

/-- With the latch off, `_consume_multi` never consumes a flag token. -/
theorem consumeMultiSuffix {name : String} {t : String} {B C vs rest2 : List String}
    (hft : isFlag t = true)
    (h : consumeMulti (B ++ (t :: C)) name false = Except.ok (vs, rest2)) :
    ∃ B2, rest2 = B2 ++ (t :: C) ∧ B2.Sublist B := by
  obtain ⟨B2, h1, h2⟩ := consumeMultiGoSuffix hft B C
  refine ⟨B2, ?_, h2⟩
  rw [consumeMultiRest h]
  exact h1

/-- Anatomy of a successful flag-branch step: the processed name gets
its table entry replaced by one marked set, with every other entry
untouched, and the tokens consumed as the flag value never reach the
next flag token of the tail, which survives with everything after it. -/
theorem processFlagAnatomy {cmd : Command} {name : String} {argvalue : Option String}
    {tl : List String} {st st2 : ScanState}
    (h : processFlag cmd name argvalue tl st = Except.ok st2) :
    (∃ sv2, st2.flagsToParse = assocSet st.flagsToParse name sv2 ∧
        sv2.isSet = true) ∧
    ∀ (B : List String) (t : String) (C : List String),
      tl = B ++ (t :: C) → isFlag t = true →
      ∃ B2, st2.rest = B2 ++ (t :: C) ∧ B2.Sublist B := by
  unfold processFlag at h
  cases hget : assocGet st.flagsToParse name with
  | none => rw [hget] at h; exact absurd h (by simp)
  | some sv =>
    rw [hget] at h
    simp only [] at h
    by_cases hset : sv.isSet = true
    · rw [if_pos hset] at h
      exact absurd h (by simp)
    · rw [if_neg hset] at h
      cases hmx : mutexStep cmd name st.mutexes with
      | error e => rw [hmx] at h; exact absurd h (by simp)
      | ok m2 =>
        rw [hmx] at h
        simp only [] at h
        cases hn : sv.spec.n with
        | zero =>
          rw [hn] at h
          simp only [] at h
          cases argvalue with
          | some av =>
            simp only [] at h
            by_cases h1 : (av == "true") = true
            · rw [if_pos h1] at h
              injection h with h2
              rw [← h2]
              exact ⟨⟨{ sv with isSet := true, value := Value.bool true }, rfl, rfl⟩,
                fun B t C htl _ => ⟨B, htl, List.Sublist.refl B⟩⟩
            · rw [if_neg h1] at h
              by_cases h2 : (av == "false") = true
              · rw [if_pos h2] at h
                injection h with h3
                rw [← h3]
                exact ⟨⟨{ sv with isSet := true, value := Value.bool false }, rfl, rfl⟩,
                  fun B t C htl _ => ⟨B, htl, List.Sublist.refl B⟩⟩
              · rw [if_neg h2] at h
                exact absurd h (by simp)
          | none =>
            simp only [] at h
            injection h with h2
            rw [← h2]
            exact ⟨⟨{ sv with isSet := true, value := Value.bool true }, rfl, rfl⟩,
              fun B t C htl _ => ⟨B, htl, List.Sublist.refl B⟩⟩
        | one =>
          rw [hn] at h
          simp only [] at h
          cases argvalue with
          | none =>
            simp only [] at h
            cases hco : consumeOne tl sv.spec.name with
            | error e => rw [hco] at h; exact absurd h (by simp)
            | ok p =>
              obtain ⟨v, tl2⟩ := p
              rw [hco] at h
              simp only [] at h
              injection h with h2
              rw [← h2]
              refine ⟨⟨{ sv with isSet := true, value := Value.str v }, rfl, rfl⟩, ?_⟩
              intro B t C htl hft
              rw [htl] at hco
              obtain ⟨b, B2, hb, h3⟩ := consumeOneSuffix hft hco
              refine ⟨B2, h3, ?_⟩
              rw [hb]
              exact List.Sublist.cons b (List.Sublist.refl B2)
          | some av =>
            simp only [] at h
            injection h with h2
            rw [← h2]
            exact ⟨⟨{ sv with isSet := true, value := Value.str av }, rfl, rfl⟩,
              fun B t C htl _ => ⟨B, htl, List.Sublist.refl B⟩⟩
        | many =>
          rw [hn] at h
          simp only [] at h
          cases argvalue with
          | none =>
            simp only [] at h
            cases hcm : consumeMulti tl sv.spec.name false with
            | error e => rw [hcm] at h; exact absurd h (by simp)
            | ok p =>
              obtain ⟨vs, tl2⟩ := p
              rw [hcm] at h
              simp only [] at h
              injection h with h2
              rw [← h2]
              refine ⟨⟨{ sv with isSet := true, value := Value.vlist (vs.map Value.str) }, rfl, rfl⟩, ?_⟩
              intro B t C htl hft
              rw [htl] at hcm
              exact consumeMultiSuffix hft hcm
          | some av =>
            simp only [] at h
            injection h with h2
            rw [← h2]
            exact ⟨⟨{ sv with isSet := true, value := Value.vlist ((splitAllStr av ',').map Value.str) }, rfl, rfl⟩,
              fun B t C htl _ => ⟨B, htl, List.Sublist.refl B⟩⟩

/-- Before the latch, a successful positional binding never consumes a
flag token: a one-arity positional takes only the current token, and a
many-arity one stops at the next flag token. -/
theorem bindPositionalRest {cmd : Command} {arg : String} {tl : List String}
    {st st2 : ScanState} (B C : List String) (t : String)
    (h : bindPositional cmd arg tl st = Except.ok st2)
    (hdone : st.doneWithFlags = false) (hargnf : isFlag arg = false)
    (hft : isFlag t = true) (hsplit : arg :: tl = B ++ (t :: C)) :
    ∃ B2, st2.rest = B2 ++ (t :: C) ∧ B2.Sublist B := by
  cases B with
  | nil =>
    simp only [List.nil_append] at hsplit
    injection hsplit with h1 h2
    rw [h1] at hargnf
    rw [hargnf] at hft
    exact absurd hft (by simp)
  | cons b B2 =>
    simp only [List.cons_append] at hsplit
    injection hsplit with h1 h2
    unfold bindPositional at h
    cases hget : st.positionalsToParse[st.positionalsIndex]? with
    | none => rw [hget] at h; exact absurd h (by simp)
    | some sv =>
      rw [hget] at h
      simp only [] at h
      cases hn : sv.spec.n with
      | one =>
        rw [hn] at h
        simp only [] at h
        injection h with h3
        rw [← h3]
        exact ⟨B2, h2, List.Sublist.cons b (List.Sublist.refl B2)⟩
      | many =>
        rw [hn] at h
        simp only [] at h
        rw [hdone] at h
        cases hcm : consumeMulti (arg :: tl) sv.spec.name false with
        | error e => rw [hcm] at h; exact absurd h (by simp)
        | ok p =>
          obtain ⟨vs, rest2⟩ := p
          rw [hcm] at h
          simp only [] at h
          injection h with h3
          rw [← h3]
          rw [h1, h2] at hcm
          rw [show (b :: (B2 ++ (t :: C))) = ((b :: B2) ++ (t :: C)) from rfl] at hcm
          exact consumeMultiSuffix hft hcm
      | zero =>
        rw [hn] at h
        exact absurd h (by simp)

/-- Once a flag name is dead and a further occurrence of it sits in the
remaining tokens before any latch token, the scan loop always fails:
value consumption never swallows the occurrence, the latch stays off,
the name stays dead, and scanning the occurrence itself errors. -/
theorem scanLoopRepeatedDead (cmd : Command) :
    ∀ (fuel : Nat) (st : ScanState) (B C : List String) (t2 : String),
    st.doneWithFlags = false →
    st.rest = B ++ (t2 :: C) →
    ("--") ∉ B → isFlag t2 = true → t2 ≠ "--" →
    flagDead st.flagsToParse (splitFlagEq t2).1 →
    ∃ e, scanLoop cmd fuel st = Except.error e := by
  intro fuel
  induction fuel with
  | zero =>
    intro st B C t2 _ _ _ _ _ _
    exact ⟨ParseError.outOfFuel, rfl⟩
  | succ fuel ih =>
    intro st B C t2 hdone hrest hB hf2 h2 hdead
    show ∃ e, scanLoop cmd (fuel + 1) st = Except.error e
    cases B with
    | nil =>
      simp only [List.nil_append] at hrest
      rw [scanLoopSucc cmd fuel st t2 C hrest]
      cases hstep : scanStep cmd t2 C st with
      | error e => exact ⟨e, rfl⟩
      | ok st2 =>
        exfalso
        unfold scanStep at hstep
        rw [if_neg (fun hc => h2 (beq_iff_eq.mp hc))] at hstep
        by_cases hh : (!st.doneWithFlags && isHelpFlag t2) = true
        · rw [if_pos hh] at hstep
          exact absurd hstep (by simp)
        · rw [if_neg hh] at hstep
          by_cases hvv : (!st.doneWithFlags && isVersionFlag t2) = true
          · rw [if_pos hvv] at hstep
            exact absurd hstep (by simp)
          · rw [if_neg hvv] at hstep
            rw [if_pos (by rw [hdone, hf2]; rfl)] at hstep
            simp only [] at hstep
            unfold processFlag at hstep
            cases hget : assocGet st.flagsToParse (splitFlagEq t2).1 with
            | none =>
              rw [hget] at hstep
              exact absurd hstep (by simp)
            | some sv =>
              rw [hget] at hstep
              simp only [] at hstep
              rw [if_pos (hdead sv hget)] at hstep
              exact absurd hstep (by simp)
    | cons b B2 =>
      simp only [List.cons_append] at hrest
      rw [scanLoopSucc cmd fuel st b (B2 ++ (t2 :: C)) hrest]
      have hbne : b ≠ "--" := fun hb => hB (by rw [hb]; exact List.mem_cons_self _ _)
      have hB2 : ("--") ∉ B2 := fun hm => hB (List.mem_cons_of_mem b hm)
      cases hstep : scanStep cmd b (B2 ++ (t2 :: C)) st with
      | error e => exact ⟨e, rfl⟩
      | ok st2 =>
        simp only []
        unfold scanStep at hstep
        rw [if_neg (fun hc => hbne (beq_iff_eq.mp hc))] at hstep
        by_cases hh : (!st.doneWithFlags && isHelpFlag b) = true
        · rw [if_pos hh] at hstep
          exact absurd hstep (by simp)
        · rw [if_neg hh] at hstep
          by_cases hvv : (!st.doneWithFlags && isVersionFlag b) = true
          · rw [if_pos hvv] at hstep
            exact absurd hstep (by simp)
          · rw [if_neg hvv] at hstep
            by_cases hfb : (!st.doneWithFlags && isFlag b) = true
            · rw [if_pos hfb] at hstep
              simp only [] at hstep
              have hdone2 : st2.doneWithFlags = false := by
                rw [(processFlagOk hstep).2]
                exact hdone
              obtain ⟨⟨sv2, hflags, hsv2⟩, hrestcl⟩ := processFlagAnatomy hstep
              obtain ⟨B3, hr3, hsub⟩ := hrestcl B2 t2 C rfl hf2
              exact ih st2 B3 C t2 hdone2 hr3
                (fun hm => hB2 (hsub.subset hm)) hf2 h2
                (by rw [hflags]
                    exact flagDeadAssocSetOther hsv2 st.flagsToParse
                      (splitFlagEq b).1 (splitFlagEq t2).1 hdead)
            · rw [if_neg hfb] at hstep
              have hbf : isFlag b = false := by
                cases e : isFlag b
                · rfl
                · exfalso
                  apply hfb
                  rw [hdone, e]
                  rfl
              obtain ⟨hlen2, hfl2, hmx2, hdw2⟩ := bindPositionalOk hstep
              obtain ⟨B3, hr3, hsub⟩ :=
                bindPositionalRest (b :: B2) C t2 hstep hdone hbf hf2 rfl
              exact ih st2 B3 C t2 (by rw [hdw2]; exact hdone) hr3
                (fun hm => hB (hsub.subset hm)) hf2 h2
                (by rw [hfl2]; exact hdead)

/-- If the remaining tokens contain, before any latch token, a flag
token and later a second flag token with the same split name, the scan
loop always fails: the first occurrence either errors or marks the name
dead, and the second occurrence then hits the repeated-flag check (or
an earlier error stops the scan first). -/
theorem scanLoopSupplyTwice (cmd : Command) :
    ∀ (fuel : Nat) (st : ScanState) (A B C : List String) (t1 t2 : String),
    st.doneWithFlags = false →
    st.rest = A ++ (t1 :: (B ++ (t2 :: C))) →
    ("--") ∉ A → isFlag t1 = true → t1 ≠ "--" →
    ("--") ∉ B → isFlag t2 = true → t2 ≠ "--" →
    (splitFlagEq t1).1 = (splitFlagEq t2).1 →
    ∃ e, scanLoop cmd fuel st = Except.error e := by
  intro fuel
  induction fuel with
  | zero =>
    intro st A B C t1 t2 _ _ _ _ _ _ _ _ _
    exact ⟨ParseError.outOfFuel, rfl⟩
  | succ fuel ih =>
    intro st A B C t1 t2 hdone hrest hA hf1 h1 hB hf2 h2 hsame
    show ∃ e, scanLoop cmd (fuel + 1) st = Except.error e
    cases A with
    | nil =>
      simp only [List.nil_append] at hrest
      rw [scanLoopSucc cmd fuel st t1 (B ++ (t2 :: C)) hrest]
      cases hstep : scanStep cmd t1 (B ++ (t2 :: C)) st with
      | error e => exact ⟨e, rfl⟩
      | ok st2 =>
        simp only []
        unfold scanStep at hstep
        rw [if_neg (fun hc => h1 (beq_iff_eq.mp hc))] at hstep
        by_cases hh : (!st.doneWithFlags && isHelpFlag t1) = true
        · rw [if_pos hh] at hstep
          exact absurd hstep (by simp)
        · rw [if_neg hh] at hstep
          by_cases hvv : (!st.doneWithFlags && isVersionFlag t1) = true
          · rw [if_pos hvv] at hstep
            exact absurd hstep (by simp)
          · rw [if_neg hvv] at hstep
            rw [if_pos (by rw [hdone, hf1]; rfl)] at hstep
            simp only [] at hstep
            have hdone2 : st2.doneWithFlags = false := by
              rw [(processFlagOk hstep).2]
              exact hdone
            obtain ⟨⟨sv2, hflags, hsv2⟩, hrestcl⟩ := processFlagAnatomy hstep
            obtain ⟨B3, hr3, hsub⟩ := hrestcl B t2 C rfl hf2
            exact scanLoopRepeatedDead cmd fuel st2 B3 C t2 hdone2 hr3
              (fun hm => hB (hsub.subset hm)) hf2 h2
              (by rw [hflags, ← hsame]
                  exact flagDeadAssocSetSelf hsv2 st.flagsToParse (splitFlagEq t1).1)
    | cons a A2 =>
      simp only [List.cons_append] at hrest
      rw [scanLoopSucc cmd fuel st a (A2 ++ (t1 :: (B ++ (t2 :: C)))) hrest]
      have hane : a ≠ "--" := fun ha => hA (by rw [ha]; exact List.mem_cons_self _ _)
      have hA2 : ("--") ∉ A2 := fun hm => hA (List.mem_cons_of_mem a hm)
      cases hstep : scanStep cmd a (A2 ++ (t1 :: (B ++ (t2 :: C)))) st with
      | error e => exact ⟨e, rfl⟩
      | ok st2 =>
        simp only []
        unfold scanStep at hstep
        rw [if_neg (fun hc => hane (beq_iff_eq.mp hc))] at hstep
        by_cases hh : (!st.doneWithFlags && isHelpFlag a) = true
        · rw [if_pos hh] at hstep
          exact absurd hstep (by simp)
        · rw [if_neg hh] at hstep
          by_cases hvv : (!st.doneWithFlags && isVersionFlag a) = true
          · rw [if_pos hvv] at hstep
            exact absurd hstep (by simp)
          · rw [if_neg hvv] at hstep
            by_cases hfa : (!st.doneWithFlags && isFlag a) = true
            · rw [if_pos hfa] at hstep
              simp only [] at hstep
              have hdone2 : st2.doneWithFlags = false := by
                rw [(processFlagOk hstep).2]
                exact hdone
              obtain ⟨⟨sv2, hflags, hsv2⟩, hrestcl⟩ := processFlagAnatomy hstep
              obtain ⟨A3, hr3, hsub⟩ := hrestcl A2 t1 (B ++ (t2 :: C)) rfl hf1
              exact ih st2 A3 B C t1 t2 hdone2 hr3
                (fun hm => hA2 (hsub.subset hm)) hf1 h1 hB hf2 h2 hsame
            · rw [if_neg hfa] at hstep
              have haf : isFlag a = false := by
                cases e : isFlag a
                · rfl
                · exfalso
                  apply hfa
                  rw [hdone, e]
                  rfl
              obtain ⟨hlen2, hfl2, hmx2, hdw2⟩ := bindPositionalOk hstep
              obtain ⟨A3, hr3, hsub⟩ :=
                bindPositionalRest (a :: A2) (B ++ (t2 :: C)) t1 hstep hdone haf hf1 rfl
              exact ih st2 A3 B C t1 t2 (by rw [hdw2]; exact hdone) hr3
                (fun hm => hA (hsub.subset hm)) hf1 h1 hB hf2 h2 hsame

/-- Claim C4: for every non-passthrough command, every flag of the
command, and every argv that supplies that flag twice before the latch
-- the two occurrences being any flag-shaped tokens whose name part
(before a first `=`, if any) is that flag, at any positions, in bare,
space-separated, or `name=value` form, with arbitrary tokens around
them -- parsing fails, whatever the arity of the flag is: each
occurrence is scanned by the flag branch (value consumption stops at
flag tokens), the first marks the flag set, and the second hits the
repeated-flag check unless an earlier error already stopped the
parse. -/
theorem c4_repeated_flag_error (cmd : Command) (prog t1 t2 : String)
    (A B C : List String)
    (hpass : cmd.passthrough = Option.none)
    (_hknown : (splitFlagEq t1).1 ∈ cmd.flags.map ArgSpec.name)
    (hf1 : isFlag t1 = true) (h1 : t1 ≠ "--") (hA : ("--") ∉ A)
    (hf2 : isFlag t2 = true) (h2 : t2 ≠ "--") (hB : ("--") ∉ B)
    (hsame : (splitFlagEq t1).1 = (splitFlagEq t2).1) :
    (parseCommand cmd (prog :: (A ++ (t1 :: (B ++ (t2 :: C)))))).isOk = false := by
  unfold parseCommand
  rw [hpass]
  simp only []
  have hd : (prog :: (A ++ (t1 :: (B ++ (t2 :: C))))).drop 1 =
      A ++ (t1 :: (B ++ (t2 :: C))) := rfl
  rw [hd]
  obtain ⟨e, he⟩ := scanLoopSupplyTwice cmd
    ((A ++ (t1 :: (B ++ (t2 :: C)))).length + 1)
    (initState cmd (A ++ (t1 :: (B ++ (t2 :: C))))) A B C t1 t2
    rfl rfl hA hf1 h1 hB hf2 h2 hsame
  rw [he]
  rfl

/-- Witness for C4: the one-arity flag `-x` of `exFlagOne`, supplied
twice in `name=value` form directly after the program name. -/
theorem c4_repeated_flag_error_witness :
    exFlagOne.passthrough = Option.none ∧
    (splitFlagEq ("-x=1")).1 ∈ exFlagOne.flags.map ArgSpec.name ∧
    isFlag ("-x=1") = true ∧ ("-x=1") ≠ ("--") ∧
    isFlag ("-x=2") = true ∧ ("-x=2") ≠ ("--") ∧
    (splitFlagEq ("-x=1")).1 = (splitFlagEq ("-x=2")).1 ∧
    (parseCommand exFlagOne [("prog"), ("-x=1"), ("-x=2")]).isOk = false :=
  ⟨rfl, by decide, by decide, by decide, by decide, by decide, by decide,
   c4_repeated_flag_error exFlagOne ("prog") ("-x=1") ("-x=2") [] [] []
     rfl (by decide) (by decide) (by decide) (by decide)
     (by decide) (by decide) (by decide) (by decide)⟩

/-- Claim C1 counterexample: when the value string is itself flag-like,
the two forms are not equivalent: `-x=-a` binds the value `-a`, while
`-x -a` fails because `_consume_one` rejects a flag-shaped token. -/
theorem c1_counterexample :
    parseCommand exFlagOne ["prog", "-x=-a"] =
      Except.ok { args := [], kwargs := [(("x"), Value.str ("-a"))],
                  lessLogging := true } ∧
    parseCommand exFlagOne ["prog", "-x", "-a"] =
      Except.error (ParseError.cmdError
        ("expected argument after -x, not another flag")) ∧
    parseCommand exFlagOne ["prog", "-x=-a"] ≠
      parseCommand exFlagOne ["prog", "-x", "-a"] := by
  exact ⟨by decide, by decide, by decide⟩

/-- Claim C1 (amended): for a non-passthrough command with a one-arity
flag whose name is flag-shaped, contains no `=`, and is not a help,
version, or `--` token, supplying the flag directly after the program
name as the single token `name=value` or as the two tokens `name` and
`value` yields identical parse results, provided the value string is not
itself flag-shaped. -/
theorem c1_amended_equal_forms (cmd : Command) (f v prog : String)
    (rest : List String) (sv : SpecAndValue)
    (hpass : cmd.passthrough = Option.none)
    (hf : isFlag f = true) (hne : ('=') ∉ f.data)
    (hh : isHelpFlag f = false) (hvf : isVersionFlag f = false)
    (hdd : f ≠ "--")
    (hget : assocGet (buildFlagsToParse cmd.flags) f = Option.some sv)
    (hone : sv.spec.n = ArgCount.one) (hset : sv.isSet = false)
    (hv : isFlag v = false) :
    parseCommand cmd (prog :: (f ++ ("=") ++ v) :: rest) =
      parseCommand cmd (prog :: f :: v :: rest) := by
  unfold parseCommand
  rw [hpass]
  simp only []
  have hd1 : (prog :: (f ++ ("=") ++ v) :: rest).drop 1 =
      (f ++ ("=") ++ v) :: rest := rfl
  have hd2 : (prog :: f :: v :: rest).drop 1 = f :: v :: rest := rfl
  rw [hd1, hd2]
  have hlen1 : ((f ++ ("=") ++ v) :: rest).length = rest.length + 1 := by simp
  have hlen2 : (f :: v :: rest).length = rest.length + 2 := by simp
  rw [hlen1, hlen2]
  rw [scanLoopSucc cmd (rest.length + 1)
    (initState cmd ((f ++ ("=") ++ v) :: rest)) _ _ rfl]
  rw [scanLoopSucc cmd (rest.length + 2)
    (initState cmd (f :: v :: rest)) _ _ rfl]
  rw [scanStepFlagEqForm cmd f v rest _ hf hne rfl]
  rw [scanStepFlagSpaceForm cmd f (v :: rest) _ hf hne hh hvf hdd rfl]
  unfold processFlag
  rw [show (initState cmd ((f ++ ("=") ++ v) :: rest)).flagsToParse =
        buildFlagsToParse cmd.flags from rfl,
      show (initState cmd (f :: v :: rest)).flagsToParse =
        buildFlagsToParse cmd.flags from rfl]
  rw [hget]
  simp only []
  rw [if_neg (by rw [hset]; exact Bool.false_ne_true)]
  rw [if_neg (by rw [hset]; exact Bool.false_ne_true)]
  rw [show (initState cmd ((f ++ ("=") ++ v) :: rest)).mutexes =
        initMutexes cmd from rfl,
      show (initState cmd (f :: v :: rest)).mutexes =
        initMutexes cmd from rfl]
  cases hmx : mutexStep cmd f (initMutexes cmd) with
  | error e => rfl
  | ok m2 =>
    simp only []
    rw [hone]
    simp only []
    have hco : consumeOne (v :: rest) sv.spec.name = Except.ok (v, rest) := by
      simp only [consumeOne]
      rw [if_neg (by rw [hv]; exact Bool.false_ne_true)]
    rw [hco]
    simp only []
    rw [show (initState cmd ((f ++ ("=") ++ v) :: rest)).positionalsToParse =
          initPositionals cmd from rfl,
        show (initState cmd (f :: v :: rest)).positionalsToParse =
          initPositionals cmd from rfl,
        show (initState cmd ((f ++ ("=") ++ v) :: rest)).positionalsIndex =
          0 from rfl,
        show (initState cmd (f :: v :: rest)).positionalsIndex = 0 from rfl,
        show (initState cmd ((f ++ ("=") ++ v) :: rest)).doneWithFlags =
          false from rfl,
        show (initState cmd (f :: v :: rest)).doneWithFlags = false from rfl]
    have hcongr := scanLoopCongr cmd (rest.length + 1) (rest.length + 2)
      { flagsToParse := assocSet (buildFlagsToParse cmd.flags) f
          { spec := sv.spec, value := Value.str v, isSet := true },
        positionalsToParse := initPositionals cmd,
        positionalsIndex := 0,
        mutexes := m2,
        doneWithFlags := false,
        rest := rest }
      (show rest.length < rest.length + 1 by omega)
      (show rest.length < rest.length + 2 by omega)
    rw [hcongr]

/-- Witness for the amended C1 at a concrete command. -/
theorem c1_amended_equal_forms_witness :
    exFlagOne.passthrough = Option.none ∧
    isFlag ("-x") = true ∧ ('=') ∉ ("-x" : String).data ∧
    isHelpFlag ("-x") = false ∧ isVersionFlag ("-x") = false ∧
    ("-x" : String) ≠ "--" ∧
    assocGet (buildFlagsToParse exFlagOne.flags) ("-x") =
      Option.some { spec := mkSpec ("-x") ArgCount.one true Value.nothing Option.none ("x"),
                    value := Value.nothing, isSet := false } ∧
    isFlag ("val") = false ∧
    parseCommand exFlagOne [("prog"), ("-x") ++ ("=") ++ ("val"), ("w")] =
      parseCommand exFlagOne [("prog"), ("-x"), ("val"), ("w")] :=
  ⟨rfl, by decide, by decide, by decide, by decide, by decide, rfl, by decide,
   c1_amended_equal_forms exFlagOne ("-x") ("val") ("prog") [("w")]
     { spec := mkSpec ("-x") ArgCount.one true Value.nothing Option.none ("x"),
       value := Value.nothing, isSet := false }
     rfl (by decide) (by decide) (by decide) (by decide) (by decide) rfl rfl rfl
     (by decide)⟩

/-- Claim C6 counterexample: with another required flag `-c` present,
an argv supplying exactly one flag of the mutual-exclusion group does
not succeed: the missing-flag check fails the parse first.  So
"supplying exactly one flag succeeds" does not hold for every command
with a two-flag mutex group. -/
theorem c6_counterexample :
    parseCommand mutexCmdExtra ["prog", "-a=1"] =
      Except.error (ParseError.cmdError ("missing mandatory flag: -c")) ∧
    (parseCommand mutexCmdExtra ["prog", "-a=1"]).isOk = false := by
  exact ⟨by decide, by decide⟩

/-- Claim C6 (amended): for a command whose only arguments are the two
optional one-arity flags `-a` and `-b` of one mutual-exclusion group:
supplying neither is a parse error naming the eligible flags unless the
group is optional (then both flags are bound to their `None` defaults);
supplying both is always the mutual-exclusion parse error; and supplying
exactly one succeeds and binds the other flag to its default `None`. -/
theorem c6_amended_mutex (opt : Bool) (va vb : String) :
    parseCommand (mutexCmd opt) ["prog"] =
      (if opt then
        Except.ok { args := [], kwargs := [(("a"), Value.none), (("b"), Value.none)],
                    lessLogging := true }
       else
        Except.error (ParseError.cmdError
          ("exactly one of the following is required: -a, -b"))) ∧
    parseCommand (mutexCmd opt)
        [("prog"), ("-a") ++ ("=") ++ va, ("-b") ++ ("=") ++ vb] =
      Except.error (ParseError.cmdError ("-a and -b are mutually exclusive")) ∧
    parseCommand (mutexCmd opt) [("prog"), ("-a") ++ ("=") ++ va] =
      Except.ok { args := [], kwargs := [(("a"), Value.str va), (("b"), Value.none)],
                  lessLogging := true } ∧
    parseCommand (mutexCmd opt) [("prog"), ("-b") ++ ("=") ++ vb] =
      Except.ok { args := [], kwargs := [(("a"), Value.none), (("b"), Value.str vb)],
                  lessLogging := true } := by
  refine ⟨?_, ?_, ?_, ?_⟩
  · cases opt
    · rfl
    · rfl
  · unfold parseCommand
    rw [show (mutexCmd opt).passthrough = Option.none from rfl]
    simp only []
    rw [show ([("prog"), ("-a") ++ ("=") ++ va, ("-b") ++ ("=") ++ vb] : List String).drop 1 =
        [("-a") ++ ("=") ++ va, ("-b") ++ ("=") ++ vb] from rfl]
    rw [show ([("-a") ++ ("=") ++ va, ("-b") ++ ("=") ++ vb] : List String).length =
        2 from rfl]
    rw [scanLoopSucc (mutexCmd opt) 2
      (initState (mutexCmd opt) [("-a") ++ ("=") ++ va, ("-b") ++ ("=") ++ vb]) _ _ rfl]
    rw [scanStepFlagEqForm (mutexCmd opt) ("-a") va [("-b") ++ ("=") ++ vb] _
      (by decide) (by decide) rfl]
    rw [show processFlag (mutexCmd opt) ("-a") (Option.some va)
        [("-b") ++ ("=") ++ vb]
        (initState (mutexCmd opt) [("-a") ++ ("=") ++ va, ("-b") ++ ("=") ++ vb]) =
        Except.ok (mutexSt1 opt va [("-b") ++ ("=") ++ vb]) from rfl]
    simp only []
    rw [show (2 : Nat) = 1 + 1 from rfl]
    rw [scanLoopSucc (mutexCmd opt) 1 (mutexSt1 opt va [("-b") ++ ("=") ++ vb]) _ _ rfl]
    rw [scanStepFlagEqForm (mutexCmd opt) ("-b") vb [] _ (by decide) (by decide) rfl]
    rfl
  · unfold parseCommand
    rw [show (mutexCmd opt).passthrough = Option.none from rfl]
    simp only []
    rw [show ([("prog"), ("-a") ++ ("=") ++ va] : List String).drop 1 =
        [("-a") ++ ("=") ++ va] from rfl]
    rw [show ([("-a") ++ ("=") ++ va] : List String).length = 1 from rfl]
    rw [scanLoopSucc (mutexCmd opt) 1
      (initState (mutexCmd opt) [("-a") ++ ("=") ++ va]) _ _ rfl]
    rw [scanStepFlagEqForm (mutexCmd opt) ("-a") va [] _ (by decide) (by decide) rfl]
    rfl
  · unfold parseCommand
    rw [show (mutexCmd opt).passthrough = Option.none from rfl]
    simp only []
    rw [show ([("prog"), ("-b") ++ ("=") ++ vb] : List String).drop 1 =
        [("-b") ++ ("=") ++ vb] from rfl]
    rw [show ([("-b") ++ ("=") ++ vb] : List String).length = 1 from rfl]
    rw [scanLoopSucc (mutexCmd opt) 1
      (initState (mutexCmd opt) [("-b") ++ ("=") ++ vb]) _ _ rfl]
    rw [scanStepFlagEqForm (mutexCmd opt) ("-b") vb [] _ (by decide) (by decide) rfl]
    rfl

end Foundation
